import Mathlib

/-!
# Scatterplot matrix: statistical and geometric core

A shallow embedding of `src/libraries/scatterplotMatrix.js` (function
`createScatterMatrix` with its inner functions `plot`, `cross` and
`linearRegression`) and of the data handling of the host symbol
`src/sym-scatterplotmatrix.js` (`parseAndCheckDataForScatterplot`, `dataUpdate`,
`configChanged`, `handleError`, `logError`).

JavaScript numbers are embedded as `JSNum K`: a finite value of an ordered field
`K`, or one of the three special values `Infinity`, `-Infinity`, `NaN`.  Finite
arithmetic is exact (no rounding) and zero is unsigned (a division of a non-zero
finite value by zero takes the sign of the numerator).  `K` is kept generic so that
the definitions evaluate over `ℚ` and the square root of `Math.sqrt` can be taken
in `ℝ`.  The JavaScript value `undefined`, where it is read as a number, is `NaN`.
-/

set_option linter.unusedSectionVars false

namespace ScatterplotMatrix

/-! ## Numbers -/

/-- A JavaScript number over the carrier `K` of finite values. -/
inductive JSNum (K : Type) where
  | fin (v : K)
  | posInf
  | negInf
  | nan
  deriving DecidableEq, Repr

namespace JSNum

variable {K : Type} [LinearOrderedField K]

/-- The infinity carrying the sign of `a`; `NaN` when `a = 0`. -/
def infOfSign (a : K) : JSNum K :=
  if a = 0 then nan else if 0 < a then posInf else negInf

/-- JavaScript `a + b`. -/
def add : JSNum K → JSNum K → JSNum K
  | fin a, fin b => fin (a + b)
  | fin _, posInf => posInf
  | fin _, negInf => negInf
  | fin _, nan => nan
  | posInf, fin _ => posInf
  | posInf, posInf => posInf
  | posInf, negInf => nan
  | posInf, nan => nan
  | negInf, fin _ => negInf
  | negInf, posInf => nan
  | negInf, negInf => negInf
  | negInf, nan => nan
  | nan, _ => nan

/-- JavaScript unary `-a`. -/
def neg : JSNum K → JSNum K
  | fin a => fin (-a)
  | posInf => negInf
  | negInf => posInf
  | nan => nan

/-- JavaScript `a - b`. -/
def sub (a b : JSNum K) : JSNum K := add a (neg b)

/-- JavaScript `a * b`. -/
def mul : JSNum K → JSNum K → JSNum K
  | fin a, fin b => fin (a * b)
  | fin a, posInf => infOfSign a
  | fin a, negInf => infOfSign (-a)
  | fin _, nan => nan
  | posInf, fin b => infOfSign b
  | posInf, posInf => posInf
  | posInf, negInf => negInf
  | posInf, nan => nan
  | negInf, fin b => infOfSign (-b)
  | negInf, posInf => negInf
  | negInf, negInf => posInf
  | negInf, nan => nan
  | nan, _ => nan

/-- JavaScript `a / b`. -/
def div : JSNum K → JSNum K → JSNum K
  | fin a, fin b => if b = 0 then infOfSign a else fin (a / b)
  | fin _, posInf => fin 0
  | fin _, negInf => fin 0
  | fin _, nan => nan
  | posInf, fin b => if b < 0 then negInf else posInf
  | posInf, posInf => nan
  | posInf, negInf => nan
  | posInf, nan => nan
  | negInf, fin b => if b < 0 then posInf else negInf
  | negInf, posInf => nan
  | negInf, negInf => nan
  | negInf, nan => nan
  | nan, _ => nan

instance : Add (JSNum K) := ⟨add⟩
instance : Sub (JSNum K) := ⟨sub⟩
instance : Mul (JSNum K) := ⟨mul⟩
instance : Div (JSNum K) := ⟨div⟩

/-- JavaScript `a < b`. -/
def lt : JSNum K → JSNum K → Bool
  | fin a, fin b => decide (a < b)
  | fin _, posInf => true
  | negInf, fin _ => true
  | negInf, posInf => true
  | _, _ => false

/-- JavaScript `a <= b`. -/
def le : JSNum K → JSNum K → Bool
  | fin a, fin b => decide (a ≤ b)
  | fin _, posInf => true
  | posInf, posInf => true
  | negInf, fin _ => true
  | negInf, posInf => true
  | negInf, negInf => true
  | _, _ => false

/-- JavaScript `a > b`. -/
def gt (a b : JSNum K) : Bool := lt b a

/-- JavaScript `a >= b`. -/
def ge (a b : JSNum K) : Bool := le b a

/-- JavaScript `isNaN(a)` on a number. -/
def isNaN : JSNum K → Bool
  | nan => true
  | _ => false

/-- The value is a finite number (neither an infinity nor `NaN`). -/
def isFinite : JSNum K → Bool
  | fin _ => true
  | _ => false

/-- JavaScript `Math.sqrt(a)`, over a square root `sq` of the carrier. -/
def sqrt (sq : K → K) : JSNum K → JSNum K
  | fin a => if a < 0 then nan else fin (sq a)
  | posInf => posInf
  | negInf => nan
  | nan => nan

/-- JavaScript `Math.pow(a, 2)`. -/
def pow2 (a : JSNum K) : JSNum K := a * a

end JSNum

open JSNum

variable {K : Type} [LinearOrderedField K]

/-! ## `linearRegression` -/

/-- The five running sums of the loop of `linearRegression`. -/
structure Sums (K : Type) where
  sum_x : JSNum K
  sum_y : JSNum K
  sum_xy : JSNum K
  sum_xx : JSNum K
  sum_yy : JSNum K

/-- The loop `for (var i = 0; i < y.length; i++)` of `linearRegression`: one step per
element of `y`; `x[i]` beyond the end of `x` is `undefined`, read as `NaN`. -/
def sumLoop : List (JSNum K) → List (JSNum K) → Sums K → Sums K
  | [], _, s => s
  | yi :: ys, xs, s =>
    let xi := xs.headD nan
    sumLoop ys xs.tail
      { sum_x := s.sum_x + xi
        sum_y := s.sum_y + yi
        sum_xy := s.sum_xy + xi * yi
        sum_xx := s.sum_xx + xi * xi
        sum_yy := s.sum_yy + yi * yi }

/-- The object returned by `linearRegression`. -/
structure Regression (K : Type) where
  slope : JSNum K
  intercept : JSNum K
  r2 : JSNum K

/-- The method `lr.fnx`: `this.slope * x + this.intercept`. -/
def Regression.fnx (lr : Regression K) (x : JSNum K) : JSNum K :=
  lr.slope * x + lr.intercept

/-- The method `lr.fny`: `(y - this.intercept) / this.slope`. -/
def Regression.fny (lr : Regression K) (y : JSNum K) : JSNum K :=
  (y - lr.intercept) / lr.slope

/-- The function `linearRegression(y, x)`; `sq` is the square root of `Math.sqrt`. -/
def linearRegression (sq : K → K) (y x : List (JSNum K)) : Regression K :=
  let n : JSNum K := fin (y.length : K)
  let s := sumLoop y x ⟨fin 0, fin 0, fin 0, fin 0, fin 0⟩
  let slope := (n * s.sum_xy - s.sum_x * s.sum_y) / (n * s.sum_xx - s.sum_x * s.sum_x)
  let intercept := (s.sum_y - slope * s.sum_x) / n
  let r2 := pow2 ((n * s.sum_xy - s.sum_x * s.sum_y) /
    JSNum.sqrt sq ((n * s.sum_xx - s.sum_x * s.sum_x) * (n * s.sum_yy - s.sum_y * s.sum_y)))
  { slope := slope, intercept := intercept, r2 := r2 }

/-! ### The sums of the closed form, over the finite values -/

/-- The sum `Σ x²`. -/
def sumSq (xs : List K) : K := (xs.map (fun v => v * v)).sum

/-- The sum `Σ xy`. -/
def sumProd (xs ys : List K) : K := (List.zipWith (fun u v => u * v) xs ys).sum

/-- The quantity `n·Σx² − (Σx)²`. -/
def varNum (xs : List K) : K := (xs.length : K) * sumSq xs - xs.sum * xs.sum

/-- The quantity `n·Σxy − Σx·Σy`. -/
def covNum (xs ys : List K) : K := (xs.length : K) * sumProd xs ys - xs.sum * ys.sum

/-! ## Configuration objects -/

/-- A JavaScript value of a configuration object: `undefined`, a boolean or a number. -/
inductive JSVal (K : Type) where
  | undefined
  | bool (b : Bool)
  | num (v : JSNum K)
  deriving DecidableEq, Repr

/-- Truthiness of a value, as tested by `if (v)` and `v && w`. -/
def JSVal.truthy : JSVal K → Bool
  | .undefined => false
  | .bool b => b
  | .num (fin v) => decide (v ≠ 0)
  | .num nan => false
  | .num _ => true

/-- The numeric reading of a value in an arithmetic expression. -/
def JSVal.toNumber : JSVal K → JSNum K
  | .undefined => nan
  | .bool true => fin 1
  | .bool false => fin 0
  | .num v => v

/-- A JavaScript object with string keys, in enumeration order. -/
abbrev JSObj (K : Type) := List (String × JSVal K)

/-- The property read `o[k]`: `undefined` for a key the object does not have. -/
def JSObj.get (o : JSObj K) (k : String) : JSVal K :=
  match o.lookup k with
  | some v => v
  | none => .undefined

/-- The property write `o[k] = v`. -/
def JSObj.set : JSObj K → String → JSVal K → JSObj K
  | [], k, v => [(k, v)]
  | (k', v') :: o, k, v => if k' = k then (k, v) :: o else (k', v') :: JSObj.set o k v

/-- The keys visited by `for (var i in o)`. -/
def JSObj.keys (o : JSObj K) : List String := o.map Prod.fst

/-- The object literal `var cfg = { Width: 700, ... }` of `createScatterMatrix`. -/
def defaultCfg : JSObj K :=
  [ ("Width", .num (fin 700)),
    ("Height", .num (fin 700)),
    ("RemoveOutliers", .bool false),
    ("FilterMultiplier", .num (fin (3 / 2))),
    ("ShowBasicStatistics", .bool false),
    ("ShowRegression", .bool false),
    ("ShowPearson", .bool false),
    ("ShowSpearman", .bool false) ]

/-- The two objects in scope of the override loop of `createScatterMatrix`. -/
structure CfgState (K : Type) where
  cfg : JSObj K
  options : JSObj K

/-- The loop `for (var i in options) { if ("undefined" !== typeof options[i]) cfg[i] = options[i]; }`
over the remaining keys. -/
def overrideLoop : List String → CfgState K → CfgState K
  | [], st => st
  | i :: rest, st =>
    overrideLoop rest
      (if st.options.get i ≠ .undefined then
        { st with cfg := st.cfg.set i (st.options.get i) }
      else st)

/-- The configuration part of `createScatterMatrix(data, id, options)`: the final `cfg` and the
`options` argument as left by the call (`none` is an `undefined` argument). -/
def createScatterMatrixCfg (options : Option (JSObj K)) : JSObj K × Option (JSObj K) :=
  match options with
  | none => (defaultCfg, none)
  | some o =>
    let st := overrideLoop o.keys { cfg := defaultCfg, options := o }
    (st.cfg, some st.options)

/-- The effective configuration `cfg` of one call. -/
def effectiveCfg (options : Option (JSObj K)) : JSObj K := (createScatterMatrixCfg options).1

/-- The configurations of a run of successive calls of `createScatterMatrix`: `cfg` is a local
variable initialised from the literal in each call. -/
def cfgOfCalls : List (Option (JSObj K)) → List (JSObj K)
  | [] => []
  | options :: later => (createScatterMatrixCfg options).1 :: cfgOfCalls later

/-! ## Dataset, domains and cells -/

/-- The argument `data` of `createScatterMatrix`. -/
structure Dataset (K : Type) where
  plotData : List (List (JSNum K))
  plotNames : List String
  plotPaths : List String

/-- The element read `d[i]` of a row; `undefined` (read as `NaN`) beyond its end. -/
def rowAt (d : List (JSNum K)) (i : Nat) : JSNum K := d.getD i nan

/-- The inner loop of `d3.extent`: compare the remaining values. -/
def extentLoop : List (JSNum K) → JSNum K × JSNum K → JSNum K × JSNum K
  | [], mm => mm
  | v :: vs, mm =>
    extentLoop vs (if JSNum.gt mm.1 v then v else mm.1, if JSNum.lt mm.2 v then v else mm.2)

/-- Modelled from the spec: `d3.extent` (library `d3v4.js`, not under src/), the Domain
Calculator: the (min, max) across all values, starting from the first comparable value
(`value >= value`); `[undefined, undefined]`, read as `NaN`, when there is none. -/
def extent : List (JSNum K) → JSNum K × JSNum K
  | [] => (nan, nan)
  | v :: vs => if JSNum.ge v v then extentLoop vs (v, v) else extent vs

/-- The entry `domainByPoint[i] = d3.extent(data.plotData, function (d) { return d[i]; })`. -/
def domainByPoint (data : Dataset K) (i : Nat) : JSNum K × JSNum K :=
  extent (data.plotData.map (fun d => rowAt d i))

/-- The dataset whose observations are the rows `rows` of finite values. -/
def Dataset.ofRows (rows : List (List K)) (names paths : List String) : Dataset K :=
  { plotData := rows.map (fun r => r.map fin), plotNames := names, plotPaths := paths }

/-- The `i`-th values over all rows of finite values. -/
def column (rows : List (List K)) (i : Nat) : List K := rows.map (fun r => r.getD i 0)

/-- The `(value_i, value_j)` pairs of all rows of finite values. -/
def rowPairs (rows : List (List K)) (i j : Nat) : List (K × K) :=
  rows.map (fun r => (r.getD i 0, r.getD j 0))

/-- A pair of finite values as a pair of numbers. -/
def finPair (q : K × K) : JSNum K × JSNum K := (fin q.1, fin q.2)

/-- One element `{ x: a[i], i: i, y: b[j], j: j }` produced by `cross`. -/
structure CellPos where
  x : String
  i : Nat
  y : String
  j : Nat
  deriving DecidableEq, Repr

/-- The function `cross(a, b)`. -/
def cross (a b : List String) : List CellPos :=
  a.enum.flatMap (fun ia => b.enum.map (fun jb => { x := ia.2, i := ia.1, y := jb.2, j := jb.1 }))

/-- Modelled from the spec: lodash `_.mean` (library `lodash.js`, not under src/): the arithmetic
mean of all values, `NaN` for an empty array. -/
def mean (ds : List (JSNum K)) : JSNum K :=
  if ds.isEmpty then nan else ds.foldl (fun acc d => acc + d) (fin 0) / fin (ds.length : K)

/-- Modelled from the spec: lodash `_.filter` (library `lodash.js`, not under src/) with a
predicate on the element and its index: retains the elements satisfying it, in order. -/
def filterIdx {α : Type} (xs : List α) (f : α → Nat → Bool) : List α :=
  (xs.enum.filter (fun ix => f ix.2 ix.1)).map Prod.snd

/-- The arrays `arrayXY` of `plot` before filtering: the columns `p.i` and `p.j`. -/
def arrayXY0 (data : Dataset K) (p : CellPos) : List (JSNum K) × List (JSNum K) :=
  (data.plotData.map (fun value => rowAt value p.i),
   data.plotData.map (fun value => rowAt value p.j))

/-- The value `criticalValue = _.mean(distances) * (3 - cfg.FilterMultiplier)`. -/
def criticalValue (cfg : JSObj K) (distances : List (JSNum K)) : JSNum K :=
  mean distances * (fin 3 - (cfg.get "FilterMultiplier").toNumber)

/-- The filter step of `plot` on a pair list with its distances:
`_.filter(zippedArrayXY, function (row, i) { return distances[i] <= criticalValue; })`. -/
def filterOutliers (cfg : JSObj K) (distances : List (JSNum K))
    (zipped : List (JSNum K × JSNum K)) : List (JSNum K × JSNum K) :=
  filterIdx zipped (fun _ i => JSNum.le (distances.getD i nan) (criticalValue cfg distances))

/-- The variable `zippedArrayXY` of `plot` as used after the outlier step; `mahalanobis` is the
function of the library `mahalanobis.js` (not under src/). -/
def zippedArrayXY (mahalanobis : List (JSNum K × JSNum K) → List (JSNum K)) (cfg : JSObj K)
    (data : Dataset K) (p : CellPos) : List (JSNum K × JSNum K) :=
  let zipped := List.zip (arrayXY0 data p).1 (arrayXY0 data p).2
  if p.i ≠ p.j ∧ (cfg.get "RemoveOutliers").truthy = true then
    filterOutliers cfg (mahalanobis zipped) zipped
  else zipped

/-- The variable `arrayXY` of `plot` as used after the outlier step. -/
def arrayXY (mahalanobis : List (JSNum K × JSNum K) → List (JSNum K)) (cfg : JSObj K)
    (data : Dataset K) (p : CellPos) : List (JSNum K) × List (JSNum K) :=
  if p.i ≠ p.j ∧ (cfg.get "RemoveOutliers").truthy = true then
    ((zippedArrayXY mahalanobis cfg data p).map (fun value => value.1),
     (zippedArrayXY mahalanobis cfg data p).map (fun value => value.2))
  else arrayXY0 data p

/-! ## Regression overlay -/

/-- The four endpoint values of the regression segment. -/
structure Endpoints (K : Type) where
  xmin : JSNum K
  ymin : JSNum K
  xmax : JSNum K
  ymax : JSNum K

/-- One end of the segment: start at the x-domain bound `x0`, evaluate `fnx`, and replace the
point by the crossing of a y-domain bound when the value is below `yd.1` or above `yd.2`. -/
def clampEnd (lr : Regression K) (x0 : JSNum K) (yd : JSNum K × JSNum K) : JSNum K × JSNum K :=
  let e : JSNum K × JSNum K := (x0, lr.fnx x0)
  let e := if JSNum.lt e.2 yd.1 then (lr.fny yd.1, yd.1) else e
  let e := if JSNum.gt e.2 yd.2 then (lr.fny yd.2, yd.2) else e
  e

/-- The clamping code of `plot`, with `xd = x.domain()` and `yd = y.domain()`. -/
def clampEndpoints (lr : Regression K) (xd yd : JSNum K × JSNum K) : Endpoints K :=
  let lo := clampEnd lr xd.1 yd
  let hi := clampEnd lr xd.2 yd
  { xmin := lo.1, ymin := lo.2, xmax := hi.1, ymax := hi.2 }

/-- The guard `!isNaN(xmin) && !isNaN(xmax) && !isNaN(ymin) & !isNaN(ymax)`. -/
def lineGuard (e : Endpoints K) : Bool :=
  !isNaN e.xmin && !isNaN e.xmax && (!isNaN e.ymin && !isNaN e.ymax)

/-- All four endpoint values are finite numbers. -/
def Endpoints.allFinite (e : Endpoints K) : Bool :=
  isFinite e.xmin && isFinite e.ymin && isFinite e.xmax && isFinite e.ymax

/-- The call `linearRegression(arrayXY[1], arrayXY[0])` of `plot`. -/
def cellRegression (sq : K → K) (mahalanobis : List (JSNum K × JSNum K) → List (JSNum K))
    (cfg : JSObj K) (data : Dataset K) (p : CellPos) : Regression K :=
  linearRegression sq (arrayXY mahalanobis cfg data p).2 (arrayXY mahalanobis cfg data p).1

/-- The endpoints computed by `plot` for the cell `p`. -/
def cellEndpoints (sq : K → K) (mahalanobis : List (JSNum K × JSNum K) → List (JSNum K))
    (cfg : JSObj K) (data : Dataset K) (p : CellPos) : Endpoints K :=
  clampEndpoints (cellRegression sq mahalanobis cfg data p)
    (domainByPoint data p.i) (domainByPoint data p.j)

/-! ## Elements appended to a cell -/

/-- An element appended to a cell by `plot`; coordinates are in data space (before the scales
`x`, `y`), text content is not modelled beyond its kind. -/
inductive Elem (K : Type) where
  | frame
  | circle (cx cy : JSNum K)
  | pearsonText
  | spearmanText
  | line (e : Endpoints K) (slope intercept : JSNum K)
  | domainText (name : String)
  | statText (index : Nat)

/-- The correlation texts of an off-diagonal cell. -/
def correlationTexts (cfg : JSObj K) : List (Elem K) :=
  let pearson := (cfg.get "ShowPearson").truthy
  let spearman := (cfg.get "ShowSpearman").truthy
  (if pearson && !spearman then [Elem.pearsonText] else []) ++
  (if spearman && !pearson then [Elem.spearmanText] else []) ++
  (if spearman && pearson then [Elem.pearsonText, Elem.spearmanText] else [])

/-- The regression line element of an off-diagonal cell, when it is appended. -/
def regressionElems (sq : K → K) (mahalanobis : List (JSNum K × JSNum K) → List (JSNum K))
    (cfg : JSObj K) (data : Dataset K) (p : CellPos) : List (Elem K) :=
  if (cfg.get "ShowRegression").truthy then
    let lr := cellRegression sq mahalanobis cfg data p
    let e := cellEndpoints sq mahalanobis cfg data p
    if lineGuard e then [Elem.line e lr.slope lr.intercept] else []
  else []

/-- The function `plot(p)`: the elements appended to the cell, in order. -/
def plot (sq : K → K) (mahalanobis : List (JSNum K × JSNum K) → List (JSNum K))
    (cfg : JSObj K) (data : Dataset K) (p : CellPos) : List (Elem K) :=
  let circles := (zippedArrayXY mahalanobis cfg data p).map (fun d => Elem.circle d.1 d.2)
  if p.i ≠ p.j then
    [Elem.frame] ++ circles ++ correlationTexts cfg ++ regressionElems sq mahalanobis cfg data p
  else
    [Elem.frame, Elem.domainText p.x] ++
      (if (cfg.get "ShowBasicStatistics").truthy then (List.range 7).map Elem.statText
       else circles)

/-! ## The host symbol: `parseAndCheckDataForScatterplot`

The functions of `src/sym-scatterplotmatrix.js`.  A thrown `TypeError` is the result `none`. -/

/-- One item of the array `values` of a source; only its field `Value` is read, and it is
a number. -/
structure Sample (K : Type) where
  Value : JSNum K

/-- One element `{ name, path, values }` of the array `data` given to
`parseAndCheckDataForScatterplot`. -/
structure Source (K : Type) where
  name : String
  path : String
  values : List (Sample K)

/-- The inner `valuesSet.forEach(function (value) { valueCollection.push(value[i].Value); })`;
`value[i]` beyond the end of `value` is `undefined` and reading its `Value` throws. -/
def valueCollection : List (List (Sample K)) → Nat → Option (List (JSNum K))
  | [], _ => some []
  | value :: rest, i =>
    match value[i]? with
    | none => none
    | some item =>
      match valueCollection rest i with
      | none => none
      | some collected => some (item.Value :: collected)

/-- The loop `for (var i = 0; i < valuesSet[0].length; i++)` over the remaining indices, with
the rows pushed to `dataSet.plotData` so far. -/
def parseLoop (valuesSet : List (List (Sample K))) :
    List Nat → List (List (JSNum K)) → Option (List (List (JSNum K)))
  | [], plotData => some plotData
  | i :: rest, plotData =>
    match valueCollection valuesSet i with
    | none => none
    | some collected =>
      let valuesOk := collected.all (fun value => !isNaN value)
      parseLoop valuesSet rest (if valuesOk then plotData ++ [collected] else plotData)

/-- The function `parseAndCheckDataForScatterplot(data)`; `valuesSet[0].length` throws when
there is no source. -/
def parseAndCheckDataForScatterplot (data : List (Source K)) : Option (Dataset K) :=
  let plotNames := data.map (fun set => set.name)
  let plotPaths := data.map (fun set => set.path)
  let valuesSet := data.map (fun set => set.values)
  match valuesSet.head? with
  | none => none
  | some first =>
    match parseLoop valuesSet (List.range first.length) [] with
    | none => none
    | some plotData => some { plotData := plotData, plotNames := plotNames, plotPaths := plotPaths }

/-- The `Value` of sample `t` of a source, `NaN` beyond the end. -/
def Source.valueAt (s : Source K) (t : Nat) : JSNum K :=
  match s.values[t]? with
  | some item => item.Value
  | none => nan

/-! ## The host symbol: event handlers

Each event is the body of one handler or promise callback of `symbolVis.prototype.init`; the
HTTP requests and timers between them are not modelled. -/

/-- The variables of `init` and of `scope` written by the handlers, the log, and the
arguments `data` of the calls of `createScatterMatrix` in call order. -/
structure Host (K : Type) where
  isNotInitialised : Bool
  isChanged : Bool
  /-- The variable `scope.lastData`; `none` is its initial value `[]`. -/
  lastData : Option (Dataset K)
  ErrorMessage : String
  lastMessage : String
  log : List String
  rendered : List (Option (Dataset K))

/-- The state after `init`. -/
def Host.init : Host K :=
  { isNotInitialised := true, isChanged := false, lastData := none, ErrorMessage := "",
    lastMessage := "", log := [], rendered := [] }

/-- The function `logError()`. -/
def logError (h : Host K) : Host K :=
  if h.ErrorMessage ≠ h.lastMessage then
    { h with lastMessage := h.ErrorMessage, log := h.log ++ [h.ErrorMessage] }
  else h

/-- The function `handleError(error)`; `error.data` and `error.data.Errors` may be
`undefined` (`none`). -/
def handleError (error : Option (Option (List String))) (h : Host K) : Host K :=
  let h := { h with ErrorMessage := "" }
  match error with
  | some (some errors) =>
    logError { h with ErrorMessage := errors.foldl (fun acc e => acc ++ e) h.ErrorMessage }
  | _ => h

/-- The callback of `getDataFromPIWebAPILinks(...).then` in `dataUpdate` (both branches) and,
with `debounced`, in `configChanged`, which also resets `isChanged` after rendering. -/
def dataResolved (debounced : Bool) (data : List (Source K)) (h : Host K) : Host K :=
  match parseAndCheckDataForScatterplot data with
  | none => h
  | some lastData =>
    let h := { h with lastData := some lastData }
    if 4 ≤ lastData.plotData.length then
      { h with rendered := h.rendered ++ [some lastData],
               isChanged := if debounced then false else h.isChanged }
    else
      logError { h with ErrorMessage := "Dataset to small" }

/-- The comparison `a !== b` of two configuration values. -/
def JSVal.strictNe : JSVal K → JSVal K → Bool
  | .undefined, .undefined => false
  | .bool a, .bool b => a != b
  | .num (fin a), .num (fin b) => decide (a ≠ b)
  | .num posInf, .num posInf => false
  | .num negInf, .num negInf => false
  | _, _ => true

/-- The function `configChanged(newConfig, oldConfig)`; `angularEquals` is the result of
`angular.equals` (library, not under src/), `none` a missing argument.  The debounced branch
sets `isChanged` and starts a timer whose callback fetches the data. -/
def configChanged (angularEquals : JSObj K → JSObj K → Bool)
    (newConfig oldConfig : Option (JSObj K)) (h : Host K) : Host K :=
  match newConfig, oldConfig with
  | some newConfig, some oldConfig =>
    if angularEquals newConfig oldConfig then h
    else if JSVal.strictNe (newConfig.get "NumberOfCurrentPoints")
        (oldConfig.get "NumberOfCurrentPoints") then
      if !h.isChanged && !h.isNotInitialised then { h with isChanged := true } else h
    else
      if !h.isNotInitialised then { h with rendered := h.rendered ++ [h.lastData] } else h
  | _, _ => h

/-- The events of the symbol. -/
inductive Event (K : Type) where
  /-- The callback of `getPIWebAPIlinks(urls).then` in `dataUpdate`. -/
  | linksResolved
  /-- A callback of `getDataFromPIWebAPILinks(...).then`. -/
  | dataResolved (debounced : Bool) (data : List (Source K))
  /-- The handler `onConfigChange`. -/
  | configChanged (newConfig oldConfig : Option (JSObj K))
  /-- A rejected request: `handleError`. -/
  | requestFailed (error : Option (Option (List String)))

/-- One event handled by the symbol. -/
def Host.step (angularEquals : JSObj K → JSObj K → Bool) (h : Host K) : Event K → Host K
  | .linksResolved => { h with isNotInitialised := false }
  | .dataResolved debounced data => dataResolved debounced data h
  | .configChanged newConfig oldConfig => configChanged angularEquals newConfig oldConfig h
  | .requestFailed error => handleError error h

/-- A run of events from a state. -/
def Host.run (angularEquals : JSObj K → JSObj K → Bool) (h : Host K) (events : List (Event K)) :
    Host K :=
  events.foldl (Host.step angularEquals) h

/-! ## The dataset of the end-to-end scenario -/

/-- The dataset `plotData = [[1,1],[2,2],[3,3],[4,4]]`. -/
def identityRows : List (List K) := [[1, 1], [2, 2], [3, 3], [4, 4]]

/-- The options `{ ShowRegression: true }`: all other options keep their defaults. -/
def showRegressionOptions : JSObj K := [("ShowRegression", .bool true)]

/-! ## Sample inputs -/

/-- Three sample observations of two variables. -/
def sampleRows : List (List ℚ) := [[3, 10], [1, 20], [2, 20]]

/-- Three sample observations with a constant first variable. -/
def constRows : List (List ℚ) := [[1, 5], [1, 6], [1, 8]]

/-- A configuration with the regression overlay enabled. -/
def sampleCfg : JSObj ℚ := [("ShowRegression", .bool true)]

/-- A configuration with the outlier filter enabled and `FilterMultiplier = 2`. -/
def sampleFilterCfg : JSObj ℚ :=
  [("RemoveOutliers", .bool true), ("FilterMultiplier", .num (fin 2))]

/-- The off-diagonal cell `(0, 1)` of two variables `a`, `b`. -/
def sampleCell : CellPos := { x := "a", i := 0, y := "b", j := 1 }

/-- A stand-in for the distance function: the first component of each pair. -/
def sampleMahalanobis (ps : List (JSNum ℚ × JSNum ℚ)) : List (JSNum ℚ) := ps.map Prod.fst

/-- A configuration with the outlier filter enabled and the given `FilterMultiplier`. -/
def cfgOfMultiplier (m : ℚ) : JSObj ℚ :=
  [("RemoveOutliers", .bool true), ("FilterMultiplier", .num (fin m))]

/-- Two sample observations of two variables. -/
def twoRows : List (List ℚ) := [[0, 0], [1, 1]]

/-- A stand-in for the distance function: the distance `1` for each of two pairs. -/
def unitDistances (_ : List (JSNum ℚ × JSNum ℚ)) : List (JSNum ℚ) := [fin 1, fin 1]

/-- Four identical sample observations of two variables. -/
def identicalRows : List (List ℚ) := [[5, 5], [5, 5], [5, 5], [5, 5]]

/-- A stand-in for the distance function on zero-variance data: `NaN` for each pair. -/
def nanDistances (ps : List (JSNum ℚ × JSNum ℚ)) : List (JSNum ℚ) := ps.map (fun _ => nan)

/-- Two sources with three samples each. -/
def threeSampleSources : List (Source ℚ) :=
  [ { name := "a", path := "pa", values := [⟨fin 1⟩, ⟨fin 2⟩, ⟨fin 3⟩] },
    { name := "b", path := "pb", values := [⟨fin 4⟩, ⟨fin 5⟩, ⟨fin 6⟩] } ]

/-- A host configuration with 50 points and width 700. -/
def hostConfigA : JSObj ℚ := [("NumberOfCurrentPoints", .num (fin 50)), ("Width", .num (fin 700))]

/-- The same host configuration after a resize to width 800. -/
def hostConfigB : JSObj ℚ := [("NumberOfCurrentPoints", .num (fin 50)), ("Width", .num (fin 800))]

/-- A stand-in for `angular.equals` on the sample configurations: both of their fields agree. -/
def sampleEquals (a b : JSObj ℚ) : Bool :=
  !JSVal.strictNe (a.get "NumberOfCurrentPoints") (b.get "NumberOfCurrentPoints") &&
  !JSVal.strictNe (a.get "Width") (b.get "Width")

/-- Two sources with three samples each, one of them `NaN`. -/
def nanSampleSources : List (Source ℚ) :=
  [ { name := "a", path := "pa", values := [⟨fin 1⟩, ⟨nan⟩, ⟨fin 3⟩] },
    { name := "b", path := "pb", values := [⟨fin 4⟩, ⟨fin 5⟩, ⟨fin 6⟩] } ]

/-! ## Arithmetic on finite values -/

namespace JSNum

@[simp] theorem fin_add_fin (a b : K) : (fin a + fin b : JSNum K) = fin (a + b) := rfl

@[simp] theorem fin_sub_fin (a b : K) : (fin a - fin b : JSNum K) = fin (a - b) := by
  show add (fin a) (neg (fin b)) = fin (a - b)
  simp [add, neg, sub_eq_add_neg]

@[simp] theorem fin_mul_fin (a b : K) : (fin a * fin b : JSNum K) = fin (a * b) := rfl

theorem fin_div_fin (a b : K) (hb : b ≠ 0) : (fin a / fin b : JSNum K) = fin (a / b) := by
  show div (fin a) (fin b) = fin (a / b)
  simp [div, hb]

theorem fin_div_zero (a : K) : (fin a / fin 0 : JSNum K) = infOfSign a := by
  show div (fin a) (fin 0) = infOfSign a
  simp [div]

theorem fin_div_fin_eq (a b : K) :
    (fin a / fin b : JSNum K) = if b = 0 then infOfSign a else fin (a / b) := rfl

@[simp] theorem nan_add (a : JSNum K) : (nan + a : JSNum K) = nan := rfl

@[simp] theorem add_nan (a : JSNum K) : (a + nan : JSNum K) = nan := by
  cases a <;> rfl

@[simp] theorem nan_sub (a : JSNum K) : (nan - a : JSNum K) = nan := rfl

@[simp] theorem sub_nan (a : JSNum K) : (a - nan : JSNum K) = nan := by
  cases a <;> rfl

@[simp] theorem nan_mul (a : JSNum K) : (nan * a : JSNum K) = nan := rfl

@[simp] theorem mul_nan (a : JSNum K) : (a * nan : JSNum K) = nan := by
  cases a <;> rfl

@[simp] theorem nan_div (a : JSNum K) : (nan / a : JSNum K) = nan := rfl

@[simp] theorem div_nan (a : JSNum K) : (a / nan : JSNum K) = nan := by
  cases a <;> rfl

@[simp] theorem lt_fin_fin (a b : K) : lt (fin a) (fin b) = decide (a < b) := rfl

@[simp] theorem le_fin_fin (a b : K) : le (fin a) (fin b) = decide (a ≤ b) := rfl

@[simp] theorem gt_fin_fin (a b : K) : gt (fin a) (fin b) = decide (b < a) := rfl

@[simp] theorem ge_fin_fin (a b : K) : ge (fin a) (fin b) = decide (b ≤ a) := rfl

end JSNum

/-! ## The sums of `linearRegression` on finite data -/

theorem sumLoop_fin (ys : List K) : ∀ (xs : List K) (a b c d e : K), ys.length = xs.length →
    sumLoop (ys.map fin) (xs.map fin) ⟨fin a, fin b, fin c, fin d, fin e⟩ =
      ⟨fin (a + xs.sum), fin (b + ys.sum), fin (c + sumProd xs ys), fin (d + sumSq xs),
        fin (e + sumSq ys)⟩ := by
  induction ys with
  | nil =>
    intro xs a b c d e h
    cases xs with
    | nil => simp [sumLoop, sumProd, sumSq]
    | cons x xs => simp at h
  | cons y ys ih =>
    intro xs a b c d e h
    cases xs with
    | nil => simp at h
    | cons x xs =>
      have h' : ys.length = xs.length := by simpa using h
      simp only [List.map_cons, sumLoop, List.headD_cons, List.tail_cons, fin_add_fin,
        fin_mul_fin]
      rw [ih xs _ _ _ _ _ h']
      simp [sumProd, sumSq, add_assoc]

/-- The sum of squared deviations from `a`. -/
theorem sumDev_eq (a : K) (xs : List K) :
    (xs.map (fun v => (v - a) * (v - a))).sum =
      sumSq xs - 2 * a * xs.sum + (xs.length : K) * (a * a) := by
  induction xs with
  | nil => simp [sumSq]
  | cons x xs ih =>
    simp only [List.map_cons, List.sum_cons, List.length_cons, ih, sumSq, Nat.cast_succ]
    ring

theorem sumDev_nonneg (a : K) (xs : List K) :
    0 ≤ (xs.map (fun v => (v - a) * (v - a))).sum := by
  apply List.sum_nonneg
  intro q hq
  obtain ⟨v, -, rfl⟩ := List.mem_map.1 hq
  exact mul_self_nonneg _

theorem sumDev_eq_zero (a : K) (xs : List K)
    (h : (xs.map (fun v => (v - a) * (v - a))).sum = 0) : ∀ v ∈ xs, v = a := by
  induction xs with
  | nil => simp
  | cons x xs ih =>
    simp only [List.map_cons, List.sum_cons] at h
    have h1 : 0 ≤ (x - a) * (x - a) := mul_self_nonneg _
    have h2 := sumDev_nonneg a xs
    have h3 : (x - a) * (x - a) = 0 := by linarith
    have h4 : (xs.map (fun v => (v - a) * (v - a))).sum = 0 := by linarith
    intro v hv
    rcases List.mem_cons.1 hv with rfl | hv
    · have := mul_self_eq_zero.1 h3
      linarith
    · exact ih h4 v hv

theorem varNum_cons (a : K) (xs : List K) :
    varNum (a :: xs) = varNum xs + (xs.map (fun v => (v - a) * (v - a))).sum := by
  rw [sumDev_eq]
  simp only [varNum, sumSq, List.map_cons, List.sum_cons, List.length_cons, Nat.cast_succ]
  ring

theorem varNum_nonneg (xs : List K) : 0 ≤ varNum xs := by
  induction xs with
  | nil => simp [varNum, sumSq]
  | cons a xs ih =>
    rw [varNum_cons]
    exact add_nonneg ih (sumDev_nonneg a xs)

/-- The quantity `n·Σx² − (Σx)²` vanishes exactly on constant lists. -/
theorem varNum_eq_zero_iff (xs : List K) : varNum xs = 0 ↔ ∀ a ∈ xs, ∀ b ∈ xs, a = b := by
  induction xs with
  | nil => simp [varNum, sumSq]
  | cons x xs ih =>
    rw [varNum_cons]
    constructor
    · intro h
      have h1 := varNum_nonneg xs
      have h2 := sumDev_nonneg x xs
      have h3 : (xs.map (fun v => (v - x) * (v - x))).sum = 0 := by linarith
      have h4 := sumDev_eq_zero x xs h3
      intro a ha b hb
      have ea : a = x := by
        rcases List.mem_cons.1 ha with rfl | ha
        · rfl
        · exact h4 a ha
      have eb : b = x := by
        rcases List.mem_cons.1 hb with rfl | hb
        · rfl
        · exact h4 b hb
      rw [ea, eb]
    · intro h
      have h1 : varNum xs = 0 :=
        ih.2 (fun a ha b hb => h a (List.mem_cons_of_mem _ ha) b (List.mem_cons_of_mem _ hb))
      have h2 : (xs.map (fun v => (v - x) * (v - x))).sum = 0 := by
        apply List.sum_eq_zero
        intro q hq
        obtain ⟨v, hv, rfl⟩ := List.mem_map.1 hq
        rw [h v (List.mem_cons_of_mem _ hv) x (List.mem_cons_self _ _)]
        simp
      rw [h1, h2, add_zero]

theorem varNum_pos_of_ne (xs : List K) (h : ∃ a ∈ xs, ∃ b ∈ xs, a ≠ b) : 0 < varNum xs := by
  rcases lt_or_eq_of_le (varNum_nonneg xs) with h1 | h1
  · exact h1
  · obtain ⟨a, ha, b, hb, hab⟩ := h
    exact absurd ((varNum_eq_zero_iff xs).1 h1.symm a ha b hb) hab

theorem length_pos_of_varNum_ne (xs : List K) (h : varNum xs ≠ 0) : (xs.length : K) ≠ 0 := by
  intro h0
  apply h
  have : xs = [] := by
    cases xs with
    | nil => rfl
    | cons x xs =>
      exfalso
      have : ((x :: xs).length : K) ≠ 0 := by
        simp only [List.length_cons, Nat.cast_succ]
        positivity
      exact this h0
  subst this
  simp [varNum, sumSq]

/-! ## The pair list of a cell -/

theorem filterIdx_sublist {α : Type} (xs : List α) (f : α → Nat → Bool) :
    List.Sublist (filterIdx xs f) xs := by
  have h : List.Sublist (filterIdx xs f) (xs.enum.map Prod.snd) :=
    List.Sublist.map _ (List.filter_sublist _)
  rwa [List.enum_map_snd] at h

/-- The unfiltered pair list of a cell: one pair `(value[p.i], value[p.j])` per row. -/
theorem zip_arrayXY0 (data : Dataset K) (p : CellPos) :
    List.zip (arrayXY0 data p).1 (arrayXY0 data p).2 =
      data.plotData.map (fun value => (rowAt value p.i, rowAt value p.j)) := by
  simp [arrayXY0, List.zip_map']

theorem zippedArrayXY_sublist (mahalanobis : List (JSNum K × JSNum K) → List (JSNum K))
    (cfg : JSObj K) (data : Dataset K) (p : CellPos) :
    List.Sublist (zippedArrayXY mahalanobis cfg data p)
      (data.plotData.map (fun value => (rowAt value p.i, rowAt value p.j))) := by
  unfold zippedArrayXY
  simp only [zip_arrayXY0]
  split
  · exact filterIdx_sublist _ _
  · exact List.Sublist.refl _

/-- The arrays used for correlation and regression are the components of the pair list. -/
theorem arrayXY_eq (mahalanobis : List (JSNum K × JSNum K) → List (JSNum K))
    (cfg : JSObj K) (data : Dataset K) (p : CellPos) :
    arrayXY mahalanobis cfg data p =
      ((zippedArrayXY mahalanobis cfg data p).map Prod.fst,
       (zippedArrayXY mahalanobis cfg data p).map Prod.snd) := by
  unfold arrayXY
  split
  · rfl
  · rename_i h
    unfold zippedArrayXY
    simp only [if_neg h, zip_arrayXY0]
    simp [arrayXY0, Function.comp_def]

/-! ## The closed form of `linearRegression` -/

theorem linearRegression_slope (sq : K → K) (ys xs : List K) (hlen : ys.length = xs.length)
    (hden : varNum xs ≠ 0) :
    (linearRegression sq (ys.map fin) (xs.map fin)).slope = fin (covNum xs ys / varNum xs) := by
  simp only [linearRegression, List.length_map, sumLoop_fin ys xs 0 0 0 0 0 hlen, zero_add,
    fin_mul_fin, fin_sub_fin, hlen]
  exact fin_div_fin _ _ hden

theorem linearRegression_intercept (sq : K → K) (ys xs : List K)
    (hlen : ys.length = xs.length) (hden : varNum xs ≠ 0) :
    (linearRegression sq (ys.map fin) (xs.map fin)).intercept =
      fin ((ys.sum - covNum xs ys / varNum xs * xs.sum) / (xs.length : K)) := by
  have hs := linearRegression_slope sq ys xs hlen hden
  have hn := length_pos_of_varNum_ne xs hden
  simp only [linearRegression] at hs ⊢
  rw [hs]
  simp only [List.length_map, sumLoop_fin ys xs 0 0 0 0 0 hlen, zero_add,
    fin_mul_fin, fin_sub_fin, hlen]
  exact fin_div_fin _ _ hn

theorem linearRegression_r2 (sq : K → K) (hsq : ∀ q : K, 0 ≤ q → sq q * sq q = q)
    (ys xs : List K) (hlen : ys.length = xs.length)
    (hx : varNum xs ≠ 0) (hy : varNum ys ≠ 0) :
    (linearRegression sq (ys.map fin) (xs.map fin)).r2 =
      fin (covNum xs ys ^ 2 / (varNum xs * varNum ys)) := by
  have hxp : 0 < varNum xs := lt_of_le_of_ne (varNum_nonneg xs) (Ne.symm hx)
  have hyp : 0 < varNum ys := lt_of_le_of_ne (varNum_nonneg ys) (Ne.symm hy)
  have hD : 0 < varNum xs * varNum ys := mul_pos hxp hyp
  have hsD := hsq _ hD.le
  have hs0 : sq (varNum xs * varNum ys) ≠ 0 := by
    intro h0
    rw [h0, mul_zero] at hsD
    exact absurd hsD.symm (ne_of_gt hD)
  have e1 : (ys.length : K) * sumSq ys - ys.sum * ys.sum = varNum ys := rfl
  have e2 : (xs.length : K) * sumSq xs - xs.sum * xs.sum = varNum xs := rfl
  have e3 : (xs.length : K) * sumProd xs ys - xs.sum * ys.sum = covNum xs ys := rfl
  simp only [linearRegression, List.length_map, sumLoop_fin ys xs 0 0 0 0 0 hlen, zero_add,
    fin_mul_fin, fin_sub_fin, e1]
  rw [hlen, e2, e3]
  simp only [JSNum.sqrt, if_neg (not_lt.2 hD.le), pow2]
  rw [fin_div_fin _ _ hs0, fin_mul_fin]
  congr 1
  rw [div_mul_div_comm, hsD]
  ring

theorem sum_affine (a b : K) (xs : List K) :
    (xs.map (fun x => a * x + b)).sum = a * xs.sum + (xs.length : K) * b := by
  induction xs with
  | nil => simp
  | cons x xs ih =>
    simp only [List.map_cons, List.sum_cons, List.length_cons, ih, Nat.cast_succ]
    ring

theorem sumProd_affine (a b : K) (xs : List K) :
    sumProd xs (xs.map (fun x => a * x + b)) = a * sumSq xs + b * xs.sum := by
  induction xs with
  | nil => simp [sumProd, sumSq]
  | cons x xs ih =>
    simp only [sumProd, sumSq, List.map_cons, List.zipWith_cons_cons, List.sum_cons] at ih ⊢
    rw [ih]
    ring

theorem sumSq_affine (a b : K) (xs : List K) :
    sumSq (xs.map (fun x => a * x + b)) =
      a * a * sumSq xs + 2 * a * b * xs.sum + (xs.length : K) * (b * b) := by
  induction xs with
  | nil => simp [sumSq]
  | cons x xs ih =>
    simp only [sumSq, List.map_cons, List.sum_cons, List.length_cons, Nat.cast_succ] at ih ⊢
    rw [ih]
    ring

theorem covNum_affine (a b : K) (xs : List K) :
    covNum xs (xs.map (fun x => a * x + b)) = a * varNum xs := by
  simp only [covNum, varNum, sumProd_affine, sum_affine]
  ring

theorem varNum_affine (a b : K) (xs : List K) :
    varNum (xs.map (fun x => a * x + b)) = a * a * varNum xs := by
  simp only [varNum, sumSq_affine, sum_affine, List.length_map]
  ring

/-- Claim C6: for `a ≠ 0`, any `b` and an array `x` with two distinct values, with
`y[k] = a·x[k] + b`, `linearRegression(y, x)` returns slope `a`, intercept `b` and `r2 = 1`. -/
theorem linearRegression_recovers_line (sq : K → K) (hsq : ∀ q : K, 0 ≤ q → sq q * sq q = q)
    (a b : K) (ha : a ≠ 0) (xs : List K) (hx : ∃ u ∈ xs, ∃ v ∈ xs, u ≠ v) :
    (linearRegression sq ((xs.map (fun x => a * x + b)).map fin) (xs.map fin)).slope = fin a ∧
    (linearRegression sq ((xs.map (fun x => a * x + b)).map fin) (xs.map fin)).intercept
      = fin b ∧
    (linearRegression sq ((xs.map (fun x => a * x + b)).map fin) (xs.map fin)).r2 = fin 1 := by
  have hv : 0 < varNum xs := varNum_pos_of_ne xs hx
  have hv0 : varNum xs ≠ 0 := ne_of_gt hv
  have hn : (xs.length : K) ≠ 0 := length_pos_of_varNum_ne xs hv0
  have hlen : (xs.map (fun x => a * x + b)).length = xs.length := List.length_map _ _
  have hvy : varNum (xs.map (fun x => a * x + b)) ≠ 0 := by
    rw [varNum_affine]
    exact mul_ne_zero (mul_ne_zero ha ha) hv0
  refine ⟨?_, ?_, ?_⟩
  · rw [linearRegression_slope sq _ xs hlen hv0, covNum_affine]
    congr 1
    field_simp
  · rw [linearRegression_intercept sq _ xs hlen hv0, covNum_affine, sum_affine]
    congr 1
    field_simp
  · rw [linearRegression_r2 sq hsq _ xs hlen hv0 hvy, covNum_affine, varNum_affine]
    congr 1
    field_simp
    ring

/-- Witness of C6 over the reals: `y = 2x + 3` on `x = [0, 1, 2]`. -/
theorem linearRegression_recovers_line_witness :
    (linearRegression Real.sqrt ((([0, 1, 2] : List ℝ).map (fun x => 2 * x + 3)).map fin)
      (([0, 1, 2] : List ℝ).map fin)).slope = fin 2 ∧
    (linearRegression Real.sqrt ((([0, 1, 2] : List ℝ).map (fun x => 2 * x + 3)).map fin)
      (([0, 1, 2] : List ℝ).map fin)).intercept = fin 3 ∧
    (linearRegression Real.sqrt ((([0, 1, 2] : List ℝ).map (fun x => 2 * x + 3)).map fin)
      (([0, 1, 2] : List ℝ).map fin)).r2 = fin 1 :=
  linearRegression_recovers_line Real.sqrt (fun q hq => Real.mul_self_sqrt hq) 2 3
    (by norm_num) [0, 1, 2] ⟨0, by simp, 1, by simp, by norm_num⟩

/-! ## The evaluators `fnx` and `fny` -/

theorem rowAt_map_fin (r : List K) : ∀ i, i < r.length →
    rowAt (r.map fin) i = fin (r.getD i 0) := by
  induction r with
  | nil => intro i h; simp at h
  | cons a r ih =>
    intro i h
    cases i with
    | zero => simp [rowAt]
    | succ i =>
      have h' : i < r.length := by simpa using h
      have := ih i h'
      simpa [rowAt] using this

/-- On rows of finite values the column read by `plot` and `domainByPoint` is `column`. -/
theorem plotData_column (rows : List (List K)) (names paths : List String) (i : Nat)
    (hi : ∀ r ∈ rows, i < r.length) :
    (Dataset.ofRows rows names paths).plotData.map (fun d => rowAt d i) =
      (column rows i).map fin := by
  simp only [Dataset.ofRows, column, List.map_map]
  apply List.map_congr_left
  intro r hr
  exact rowAt_map_fin r i (hi r hr)

theorem extentLoop_fin (vs : List K) : ∀ a b : K,
    extentLoop (vs.map fin) (fin a, fin b) = (fin (vs.foldl min a), fin (vs.foldl max b)) := by
  induction vs with
  | nil => intro a b; rfl
  | cons v vs ih =>
    intro a b
    simp only [List.map_cons, extentLoop, gt_fin_fin, lt_fin_fin, List.foldl_cons]
    have h1 : (if decide (v < a) = true then fin v else fin a : JSNum K) = fin (min a v) := by
      by_cases h : v < a
      · simp [h, min_eq_right h.le]
      · simp [h, min_eq_left (not_lt.1 h)]
    have h2 : (if decide (b < v) = true then fin v else fin b : JSNum K) = fin (max b v) := by
      by_cases h : b < v
      · simp [h, max_eq_right h.le]
      · simp [h, max_eq_left (not_lt.1 h)]
    rw [h1, h2, ih]

theorem extent_fin_cons (v : K) (vs : List K) :
    extent ((v :: vs).map fin) = (fin (vs.foldl min v), fin (vs.foldl max v)) := by
  simp [extent, extentLoop_fin]

theorem foldl_min_le (vs : List K) : ∀ a : K,
    vs.foldl min a ≤ a ∧ ∀ v ∈ vs, vs.foldl min a ≤ v := by
  induction vs with
  | nil => intro a; simp
  | cons w vs ih =>
    intro a
    obtain ⟨h1, h2⟩ := ih (min a w)
    simp only [List.foldl_cons]
    refine ⟨le_trans h1 (min_le_left _ _), ?_⟩
    intro v hv
    rcases List.mem_cons.1 hv with rfl | hv
    · exact le_trans h1 (min_le_right _ _)
    · exact h2 v hv

theorem le_foldl_max (vs : List K) : ∀ a : K,
    a ≤ vs.foldl max a ∧ ∀ v ∈ vs, v ≤ vs.foldl max a := by
  induction vs with
  | nil => intro a; simp
  | cons w vs ih =>
    intro a
    obtain ⟨h1, h2⟩ := ih (max a w)
    simp only [List.foldl_cons]
    refine ⟨le_trans (le_max_left _ _) h1, ?_⟩
    intro v hv
    rcases List.mem_cons.1 hv with rfl | hv
    · exact le_trans (le_max_right _ _) h1
    · exact h2 v hv

theorem foldl_min_mem (vs : List K) : ∀ a : K, vs.foldl min a ∈ a :: vs := by
  induction vs with
  | nil => intro a; simp
  | cons w vs ih =>
    intro a
    simp only [List.foldl_cons]
    have h := ih (min a w)
    rcases List.mem_cons.1 h with h | h
    · rw [h]
      rcases min_choice a w with e | e
      · rw [e]; simp
      · rw [e]; simp
    · exact List.mem_cons_of_mem _ (List.mem_cons_of_mem _ h)

theorem foldl_max_mem (vs : List K) : ∀ a : K, vs.foldl max a ∈ a :: vs := by
  induction vs with
  | nil => intro a; simp
  | cons w vs ih =>
    intro a
    simp only [List.foldl_cons]
    have h := ih (max a w)
    rcases List.mem_cons.1 h with h | h
    · rw [h]
      rcases max_choice a w with e | e
      · rw [e]; simp
      · rw [e]; simp
    · exact List.mem_cons_of_mem _ (List.mem_cons_of_mem _ h)

/-- The extent of a non-empty list of finite values is its minimum and maximum. -/
theorem extent_fin (vs : List K) (hne : vs ≠ []) :
    ∃ mn mx : K, extent (vs.map fin) = (fin mn, fin mx) ∧ mn ∈ vs ∧ mx ∈ vs ∧
      ∀ v ∈ vs, mn ≤ v ∧ v ≤ mx := by
  cases vs with
  | nil => exact absurd rfl hne
  | cons v vs =>
    refine ⟨vs.foldl min v, vs.foldl max v, extent_fin_cons v vs, foldl_min_mem vs v,
      foldl_max_mem vs v, ?_⟩
    intro w hw
    rcases List.mem_cons.1 hw with rfl | hw
    · exact ⟨(foldl_min_le vs w).1, (le_foldl_max vs w).1⟩
    · exact ⟨(foldl_min_le vs v).2 w hw, (le_foldl_max vs v).2 w hw⟩

/-- The domain of a variable of finite observations bounds every value of its column. -/
theorem domainByPoint_bounds (rows : List (List K)) (names paths : List String)
    (hne : rows ≠ []) (hN : ∀ r ∈ rows, r.length = names.length)
    (i : Nat) (hi : i < names.length) :
    ∃ mn mx : K, domainByPoint (Dataset.ofRows rows names paths) i = (fin mn, fin mx) ∧
      ∀ v ∈ column rows i, mn ≤ v ∧ v ≤ mx := by
  have hcol : column rows i ≠ [] := by
    simpa [column] using hne
  obtain ⟨mn, mx, he, -, -, hb⟩ := extent_fin (column rows i) hcol
  refine ⟨mn, mx, ?_, hb⟩
  unfold domainByPoint
  rw [plotData_column rows names paths i (fun r hr => by rw [hN r hr]; exact hi)]
  exact he

/-- Claim C2: for a dataset with at least one row, each of `N` finite values, and a variable
index `i < N`, `domainByPoint[i]` is the pair `(min, max)` of the `i`-th values over all rows:
both are values of the column, `min ≤ v ≤ max` for every value `v` of the column,
`min ≤ max`, and `min = max` exactly when the column is constant. -/
theorem domainByPoint_min_max (rows : List (List K)) (names paths : List String)
    (hne : rows ≠ []) (hN : ∀ r ∈ rows, r.length = names.length)
    (i : Nat) (hi : i < names.length) :
    ∃ mn mx : K, domainByPoint (Dataset.ofRows rows names paths) i = (fin mn, fin mx) ∧
      mn ∈ column rows i ∧ mx ∈ column rows i ∧
      (∀ v ∈ column rows i, mn ≤ v ∧ v ≤ mx) ∧ mn ≤ mx ∧
      (mn = mx ↔ ∀ a ∈ column rows i, ∀ b ∈ column rows i, a = b) := by
  have hcol : column rows i ≠ [] := by
    simpa [column] using hne
  obtain ⟨mn, mx, he, hmn, hmx, hb⟩ := extent_fin (column rows i) hcol
  refine ⟨mn, mx, ?_, hmn, hmx, hb, le_trans (hb mn hmn).1 (hb mn hmn).2, ?_⟩
  · unfold domainByPoint
    rw [plotData_column rows names paths i (fun r hr => by rw [hN r hr]; exact hi)]
    exact he
  · constructor
    · intro e a ha b hb'
      have h1 := hb a ha
      have h2 := hb b hb'
      rw [← e] at h1 h2
      exact le_antisymm (le_trans h1.2 h2.1) (le_trans h2.2 h1.1)
    · intro h
      exact h mn hmn mx hmx

/-- Witness of C2: the rows `[3, 10]`, `[1, 20]`, `[2, 20]` and the variable index `0`. -/
theorem domainByPoint_min_max_witness :
    ∃ mn mx : ℚ,
      domainByPoint (Dataset.ofRows sampleRows ["a", "b"] ["p", "q"]) 0 = (fin mn, fin mx) ∧
      mn ∈ column sampleRows 0 ∧ mx ∈ column sampleRows 0 ∧
      (∀ v ∈ column sampleRows 0, mn ≤ v ∧ v ≤ mx) ∧ mn ≤ mx ∧
      (mn = mx ↔ ∀ a ∈ column sampleRows 0, ∀ b ∈ column sampleRows 0, a = b) :=
  domainByPoint_min_max sampleRows ["a", "b"] ["p", "q"] (by simp [sampleRows])
    (by simp [sampleRows]) 0 (by simp)

/-! ## The outlier filter -/

theorem enumFrom_filter_eq_range' {α : Type} (q : Nat → Bool) (dflt : α) (xs : List α) :
    ∀ n : Nat, ((xs.enumFrom n).filter (fun ix => q ix.1)).map Prod.snd =
      ((List.range' n xs.length).filter q).map (fun k => xs.getD (k - n) dflt) := by
  induction xs with
  | nil => intro n; simp
  | cons x xs ih =>
    intro n
    have htail : ((List.range' (n + 1) xs.length).filter q).map
          (fun k => xs.getD (k - (n + 1)) dflt) =
        ((List.range' (n + 1) xs.length).filter q).map
          (fun k => (x :: xs).getD (k - n) dflt) := by
      apply List.map_congr_left
      intro k hk
      have hk1 : n + 1 ≤ k := (List.mem_range'_1.1 (List.mem_filter.1 hk).1).1
      have e : k - n = (k - (n + 1)) + 1 := by omega
      rw [e]
      simp
    simp only [List.enumFrom_cons, List.length_cons, List.range'_succ, List.filter_cons]
    by_cases hq : q n = true
    · simp only [hq, if_true, List.map_cons, Nat.sub_self, List.getD_cons_zero]
      rw [ih (n + 1), htail]
    · simp only [hq, Bool.false_eq_true, if_false]
      rw [ih (n + 1), htail]

/-- The filter with an index predicate retains the elements at the indices satisfying it. -/
theorem filterIdx_eq_range {α : Type} (q : Nat → Bool) (dflt : α) (xs : List α) :
    filterIdx xs (fun _ i => q i) =
      ((List.range xs.length).filter q).map (fun k => xs.getD k dflt) := by
  have h := enumFrom_filter_eq_range' q dflt xs 0
  simpa [filterIdx, List.enum, List.range_eq_range'] using h

/-- Claim C3: in an off-diagonal cell with `RemoveOutliers` enabled, with `d` the distances of
the cell's `(value_i, value_j)` pairs, the filtered pair list consists of the pairs at the
indices `k` with `d[k] <= mean(d) * (3 - FilterMultiplier)`, in their original order, and the
arrays used for correlation and regression are its first and second components; with
`RemoveOutliers` disabled, or on a diagonal cell, the pair list is the list of all rows. -/
theorem outlier_filter_subsequence
    (mahalanobis : List (JSNum K × JSNum K) → List (JSNum K)) (cfg : JSObj K)
    (data : Dataset K) (p : CellPos) :
    (p.i ≠ p.j → (cfg.get "RemoveOutliers").truthy = true →
      zippedArrayXY mahalanobis cfg data p =
        ((List.range data.plotData.length).filter (fun k =>
            JSNum.le
              ((mahalanobis
                (data.plotData.map (fun value => (rowAt value p.i, rowAt value p.j)))).getD k nan)
              (mean (mahalanobis
                  (data.plotData.map (fun value => (rowAt value p.i, rowAt value p.j)))) *
                (fin 3 - (cfg.get "FilterMultiplier").toNumber)))).map
          (fun k => (data.plotData.map
            (fun value => (rowAt value p.i, rowAt value p.j))).getD k (nan, nan)) ∧
      List.Sublist (zippedArrayXY mahalanobis cfg data p)
        (data.plotData.map (fun value => (rowAt value p.i, rowAt value p.j)))) ∧
    arrayXY mahalanobis cfg data p =
      ((zippedArrayXY mahalanobis cfg data p).map Prod.fst,
       (zippedArrayXY mahalanobis cfg data p).map Prod.snd) ∧
    ((cfg.get "RemoveOutliers").truthy = false ∨ p.i = p.j →
      zippedArrayXY mahalanobis cfg data p =
        data.plotData.map (fun value => (rowAt value p.i, rowAt value p.j))) := by
  refine ⟨?_, arrayXY_eq mahalanobis cfg data p, ?_⟩
  · intro hij hrem
    refine ⟨?_, zippedArrayXY_sublist mahalanobis cfg data p⟩
    unfold zippedArrayXY
    simp only [zip_arrayXY0, if_pos (And.intro hij hrem)]
    unfold filterOutliers criticalValue
    rw [filterIdx_eq_range _ (nan, nan)]
    simp
  · intro h
    unfold zippedArrayXY
    have hn : ¬ (p.i ≠ p.j ∧ (cfg.get "RemoveOutliers").truthy = true) := by
      rintro ⟨h1, h2⟩
      rcases h with h | h
      · rw [h] at h2
        exact absurd h2 (by simp)
      · exact h1 h
    simp only [zip_arrayXY0, if_neg hn]

/-- Witness of C3: the sample rows with the stand-in distances and `FilterMultiplier = 2`;
the mean distance is `2`, the critical value `2`, and the first pair (distance `3`) is
removed. -/
theorem outlier_filter_subsequence_witness :
    zippedArrayXY sampleMahalanobis sampleFilterCfg
      (Dataset.ofRows sampleRows ["a", "b"] ["p", "q"]) sampleCell =
        [(fin 1, fin 20), (fin 2, fin 20)] := by
  have hFM : (sampleFilterCfg.get "FilterMultiplier").toNumber = fin 2 := rfl
  rw [((outlier_filter_subsequence sampleMahalanobis sampleFilterCfg
      (Dataset.ofRows sampleRows ["a", "b"] ["p", "q"]) sampleCell).1 (by decide) (by decide)).1,
    hFM]
  norm_num [Dataset.ofRows, sampleRows, sampleCell, sampleMahalanobis, rowAt, mean,
    fin_div_fin_eq, List.range, List.range.loop, List.filter]

/-! ## Clamping of the regression segment -/

/-- One end of the segment stays on the line and inside the domain rectangle, whenever the
line passes through a point `(cx, cy)` of the rectangle. -/
theorem clampEnd_inside (lr : Regression K) (s b x0 x1 y0 y1 cx cy xq : K)
    (hs : lr.slope = fin s) (hb : lr.intercept = fin b) (hc : cy = s * cx + b)
    (hx0 : x0 ≤ cx) (hx1 : cx ≤ x1) (hy0 : y0 ≤ cy) (hy1 : cy ≤ y1)
    (hq0 : x0 ≤ xq) (hq1 : xq ≤ x1) :
    ∃ ex ey : K, clampEnd lr (fin xq) (fin y0, fin y1) = (fin ex, fin ey) ∧
      ey = s * ex + b ∧ x0 ≤ ex ∧ ex ≤ x1 ∧ y0 ≤ ey ∧ ey ≤ y1 := by
  have hy01 : y0 ≤ y1 := le_trans hy0 hy1
  have hfnx : lr.fnx (fin xq) = fin (s * xq + b) := by
    simp [Regression.fnx, hs, hb]
  by_cases h1 : s * xq + b < y0
  · have hs0 : s ≠ 0 := by
      intro h0
      rw [h0] at h1 hc
      simp only [zero_mul, zero_add] at h1 hc
      rw [hc] at hy0
      exact absurd h1 (not_lt.2 hy0)
    have hfny : lr.fny (fin y0) = fin ((y0 - b) / s) := by
      simp [Regression.fny, hs, hb, fin_div_fin _ _ hs0]
    have hcl : clampEnd lr (fin xq) (fin y0, fin y1) = (fin ((y0 - b) / s), fin y0) := by
      simp [clampEnd, hfnx, hfny, h1, not_lt.2 hy01]
    refine ⟨(y0 - b) / s, y0, hcl, by field_simp, ?_, ?_, le_refl _, hy01⟩
    · rcases lt_or_gt_of_ne hs0 with hneg | hpos
      · have : cx ≤ (y0 - b) / s := by
          rw [le_div_iff_of_neg hneg]
          linarith
        exact le_trans hx0 this
      · have : xq ≤ (y0 - b) / s := by
          rw [le_div_iff₀ hpos]
          linarith
        exact le_trans hq0 this
    · rcases lt_or_gt_of_ne hs0 with hneg | hpos
      · have : (y0 - b) / s ≤ xq := by
          rw [div_le_iff_of_neg hneg]
          linarith
        exact le_trans this hq1
      · have : (y0 - b) / s ≤ cx := by
          rw [div_le_iff₀ hpos]
          linarith
        exact le_trans this hx1
  · by_cases h2 : y1 < s * xq + b
    · have hs0 : s ≠ 0 := by
        intro h0
        rw [h0] at h2 hc
        simp only [zero_mul, zero_add] at h2 hc
        rw [hc] at hy1
        exact absurd h2 (not_lt.2 hy1)
      have hfny : lr.fny (fin y1) = fin ((y1 - b) / s) := by
        simp [Regression.fny, hs, hb, fin_div_fin _ _ hs0]
      have hcl : clampEnd lr (fin xq) (fin y0, fin y1) = (fin ((y1 - b) / s), fin y1) := by
        simp [clampEnd, hfnx, hfny, h1, h2]
      refine ⟨(y1 - b) / s, y1, hcl, by field_simp, ?_, ?_, hy01, le_refl _⟩
      · rcases lt_or_gt_of_ne hs0 with hneg | hpos
        · have : xq ≤ (y1 - b) / s := by
            rw [le_div_iff_of_neg hneg]
            linarith
          exact le_trans hq0 this
        · have : cx ≤ (y1 - b) / s := by
            rw [le_div_iff₀ hpos]
            linarith
          exact le_trans hx0 this
      · rcases lt_or_gt_of_ne hs0 with hneg | hpos
        · have : (y1 - b) / s ≤ cx := by
            rw [div_le_iff_of_neg hneg]
            linarith
          exact le_trans this hx1
        · have : (y1 - b) / s ≤ xq := by
            rw [div_le_iff₀ hpos]
            linarith
          exact le_trans this hq1
    · have hcl : clampEnd lr (fin xq) (fin y0, fin y1) = (fin xq, fin (s * xq + b)) := by
        simp [clampEnd, hfnx, h1, h2]
      exact ⟨xq, s * xq + b, hcl, rfl, hq0, hq1, not_lt.1 h1, not_lt.1 h2⟩

theorem sum_bounds (lo hi : K) (vs : List K) (h : ∀ v ∈ vs, lo ≤ v ∧ v ≤ hi) :
    (vs.length : K) * lo ≤ vs.sum ∧ vs.sum ≤ (vs.length : K) * hi := by
  induction vs with
  | nil => simp
  | cons v vs ih =>
    have h1 := h v (List.mem_cons_self _ _)
    have h2 := ih (fun w hw => h w (List.mem_cons_of_mem _ hw))
    simp only [List.length_cons, List.sum_cons, Nat.cast_succ]
    constructor
    · linarith [h1.1, h2.1]
    · linarith [h1.2, h2.2]

/-- The mean of a non-empty list lies between any bounds of its values. -/
theorem mean_bounds (lo hi : K) (vs : List K) (hn : (vs.length : K) ≠ 0)
    (h : ∀ v ∈ vs, lo ≤ v ∧ v ≤ hi) :
    lo ≤ vs.sum / (vs.length : K) ∧ vs.sum / (vs.length : K) ≤ hi := by
  have hpos : 0 < (vs.length : K) :=
    lt_of_le_of_ne (Nat.cast_nonneg _) (Ne.symm hn)
  obtain ⟨h1, h2⟩ := sum_bounds lo hi vs h
  constructor
  · rw [le_div_iff₀ hpos]
    linarith
  · rw [div_le_iff₀ hpos]
    linarith

/-- The fitted line passes through the centroid of the data. -/
theorem centroid_on_line (n sx sy a : K) (hn : n ≠ 0) :
    sy / n = a * (sx / n) + (sy - a * sx) / n := by
  field_simp

/-- The endpoints of the segment fitted on finite pairs lying in a rectangle stay on the
fitted line and inside the rectangle. -/
theorem clampEndpoints_inside (sq : K → K) (ps : List (K × K)) (x0 x1 y0 y1 : K)
    (hvar : varNum (ps.map Prod.fst) ≠ 0)
    (hbox : ∀ q ∈ ps, (x0 ≤ q.1 ∧ q.1 ≤ x1) ∧ (y0 ≤ q.2 ∧ q.2 ≤ y1)) :
    ∃ s b xmin ymin xmax ymax : K,
      (linearRegression sq ((ps.map Prod.snd).map fin) ((ps.map Prod.fst).map fin)).slope
        = fin s ∧
      (linearRegression sq ((ps.map Prod.snd).map fin) ((ps.map Prod.fst).map fin)).intercept
        = fin b ∧
      clampEndpoints
          (linearRegression sq ((ps.map Prod.snd).map fin) ((ps.map Prod.fst).map fin))
          (fin x0, fin x1) (fin y0, fin y1) =
        { xmin := fin xmin, ymin := fin ymin, xmax := fin xmax, ymax := fin ymax } ∧
      ymin = s * xmin + b ∧ ymax = s * xmax + b ∧
      (x0 ≤ xmin ∧ xmin ≤ x1) ∧ (y0 ≤ ymin ∧ ymin ≤ y1) ∧
      (x0 ≤ xmax ∧ xmax ≤ x1) ∧ (y0 ≤ ymax ∧ ymax ≤ y1) := by
  have hlen : (ps.map Prod.snd).length = (ps.map Prod.fst).length := by simp
  have hn := length_pos_of_varNum_ne _ hvar
  have hslope := linearRegression_slope sq _ _ hlen hvar
  have hint := linearRegression_intercept sq _ _ hlen hvar
  have hxb := mean_bounds x0 x1 (ps.map Prod.fst) hn (by
    intro v hv
    obtain ⟨q, hq, rfl⟩ := List.mem_map.1 hv
    exact (hbox q hq).1)
  have hn' : ((ps.map Prod.snd).length : K) ≠ 0 := by rw [hlen]; exact hn
  have hyb := mean_bounds y0 y1 (ps.map Prod.snd) hn' (by
    intro v hv
    obtain ⟨q, hq, rfl⟩ := List.mem_map.1 hv
    exact (hbox q hq).2)
  rw [hlen] at hyb
  have hx01 : x0 ≤ x1 := le_trans hxb.1 hxb.2
  have hc : (ps.map Prod.snd).sum / ((ps.map Prod.fst).length : K) =
      covNum (ps.map Prod.fst) (ps.map Prod.snd) / varNum (ps.map Prod.fst) *
        ((ps.map Prod.fst).sum / ((ps.map Prod.fst).length : K)) +
      ((ps.map Prod.snd).sum - covNum (ps.map Prod.fst) (ps.map Prod.snd) /
        varNum (ps.map Prod.fst) * (ps.map Prod.fst).sum) / ((ps.map Prod.fst).length : K) :=
    centroid_on_line _ _ _ _ hn
  obtain ⟨ex, ey, hlo, hlo1, hlo2, hlo3, hlo4, hlo5⟩ :=
    clampEnd_inside _ _ _ x0 x1 y0 y1 _ _ x0 hslope hint hc hxb.1 hxb.2 hyb.1 hyb.2
      (le_refl _) hx01
  obtain ⟨fx, fy, hhi, hhi1, hhi2, hhi3, hhi4, hhi5⟩ :=
    clampEnd_inside _ _ _ x0 x1 y0 y1 _ _ x1 hslope hint hc hxb.1 hxb.2 hyb.1 hyb.2
      hx01 (le_refl _)
  refine ⟨_, _, ex, ey, fx, fy, hslope, hint, ?_, hlo1, hhi1, ⟨hlo2, hlo3⟩, ⟨hlo4, hlo5⟩,
    ⟨hhi2, hhi3⟩, ⟨hhi4, hhi5⟩⟩
  simp only [clampEndpoints, hlo, hhi]

/-! ## Cells of a dataset of finite observations -/

theorem plotData_pairs (rows : List (List K)) (names paths : List String) (i j : Nat)
    (hi : ∀ r ∈ rows, i < r.length) (hj : ∀ r ∈ rows, j < r.length) :
    (Dataset.ofRows rows names paths).plotData.map (fun value => (rowAt value i, rowAt value j))
      = (rowPairs rows i j).map finPair := by
  simp only [Dataset.ofRows, rowPairs, List.map_map]
  apply List.map_congr_left
  intro r hr
  simp [finPair, rowAt_map_fin r i (hi r hr), rowAt_map_fin r j (hj r hr)]

/-- The pair list of a cell of finite observations is a subsequence of the rows' pairs. -/
theorem zippedArrayXY_fin (mahalanobis : List (JSNum K × JSNum K) → List (JSNum K))
    (cfg : JSObj K) (rows : List (List K)) (names paths : List String) (p : CellPos)
    (hi : ∀ r ∈ rows, p.i < r.length) (hj : ∀ r ∈ rows, p.j < r.length) :
    ∃ ps : List (K × K), List.Sublist ps (rowPairs rows p.i p.j) ∧
      zippedArrayXY mahalanobis cfg (Dataset.ofRows rows names paths) p = ps.map finPair := by
  have h := zippedArrayXY_sublist mahalanobis cfg (Dataset.ofRows rows names paths) p
  rw [plotData_pairs rows names paths p.i p.j hi hj] at h
  obtain ⟨ps, hps, e⟩ := List.sublist_map_iff.1 h
  exact ⟨ps, hps, e⟩

theorem cellRegression_fin (sq : K → K)
    (mahalanobis : List (JSNum K × JSNum K) → List (JSNum K))
    (cfg : JSObj K) (data : Dataset K) (p : CellPos) (ps : List (K × K))
    (hps : zippedArrayXY mahalanobis cfg data p = ps.map finPair) :
    cellRegression sq mahalanobis cfg data p =
      linearRegression sq ((ps.map Prod.snd).map fin) ((ps.map Prod.fst).map fin) := by
  unfold cellRegression
  rw [arrayXY_eq, hps]
  simp [List.map_map, Function.comp_def, finPair]

theorem rowPairs_mem (rows : List (List K)) (i j : Nat) (q : K × K)
    (hq : q ∈ rowPairs rows i j) : q.1 ∈ column rows i ∧ q.2 ∈ column rows j := by
  obtain ⟨r, hr, rfl⟩ := List.mem_map.1 hq
  exact ⟨List.mem_map.2 ⟨r, hr, rfl⟩, List.mem_map.2 ⟨r, hr, rfl⟩⟩

theorem lineGuard_fin (a b c d : K) :
    lineGuard ({ xmin := fin a, ymin := fin b, xmax := fin c, ymax := fin d } : Endpoints K)
      = true := rfl

/-- The regression overlay of a cell of finite observations whose regression input has
non-constant x values: finite slope and intercept, finite endpoints on the line and inside
the domain rectangle. -/
theorem cellEndpoints_inside (sq : K → K)
    (mahalanobis : List (JSNum K × JSNum K) → List (JSNum K)) (cfg : JSObj K)
    (rows : List (List K)) (names paths : List String)
    (hN : ∀ r ∈ rows, r.length = names.length)
    (p : CellPos) (hi : p.i < names.length) (hj : p.j < names.length)
    (ps : List (K × K))
    (hps : zippedArrayXY mahalanobis cfg (Dataset.ofRows rows names paths) p = ps.map finPair)
    (hvar : varNum (ps.map Prod.fst) ≠ 0) :
    ∃ s b x0 x1 y0 y1 xmin ymin xmax ymax : K,
      (cellRegression sq mahalanobis cfg (Dataset.ofRows rows names paths) p).slope = fin s ∧
      (cellRegression sq mahalanobis cfg (Dataset.ofRows rows names paths) p).intercept
        = fin b ∧
      domainByPoint (Dataset.ofRows rows names paths) p.i = (fin x0, fin x1) ∧
      domainByPoint (Dataset.ofRows rows names paths) p.j = (fin y0, fin y1) ∧
      cellEndpoints sq mahalanobis cfg (Dataset.ofRows rows names paths) p =
        { xmin := fin xmin, ymin := fin ymin, xmax := fin xmax, ymax := fin ymax } ∧
      ymin = s * xmin + b ∧ ymax = s * xmax + b ∧
      (x0 ≤ xmin ∧ xmin ≤ x1) ∧ (y0 ≤ ymin ∧ ymin ≤ y1) ∧
      (x0 ≤ xmax ∧ xmax ≤ x1) ∧ (y0 ≤ ymax ∧ ymax ≤ y1) := by
  have hri : ∀ r ∈ rows, p.i < r.length := fun r hr => by rw [hN r hr]; exact hi
  have hrj : ∀ r ∈ rows, p.j < r.length := fun r hr => by rw [hN r hr]; exact hj
  have hsub : List.Sublist ps (rowPairs rows p.i p.j) := by
    have h := zippedArrayXY_sublist mahalanobis cfg (Dataset.ofRows rows names paths) p
    rw [plotData_pairs rows names paths p.i p.j hri hrj, hps] at h
    obtain ⟨ps', hsub', e⟩ := List.sublist_map_iff.1 h
    have hinj : Function.Injective (finPair : K × K → JSNum K × JSNum K) := by
      intro a b hab
      simp only [finPair, Prod.mk.injEq, fin.injEq] at hab
      exact Prod.ext hab.1 hab.2
    rw [List.map_injective_iff.2 hinj e]
    exact hsub'
  have hrows : rows ≠ [] := by
    intro h0
    subst h0
    have : ps = [] := by simpa [rowPairs] using hsub
    subst this
    exact hvar (by simp [varNum, sumSq])
  obtain ⟨x0, x1, hdx, hbx⟩ := domainByPoint_bounds rows names paths hrows hN p.i hi
  obtain ⟨y0, y1, hdy, hby⟩ := domainByPoint_bounds rows names paths hrows hN p.j hj
  have hbox : ∀ q ∈ ps, (x0 ≤ q.1 ∧ q.1 ≤ x1) ∧ (y0 ≤ q.2 ∧ q.2 ≤ y1) := by
    intro q hq
    have hm := rowPairs_mem rows p.i p.j q (hsub.subset hq)
    exact ⟨hbx _ hm.1, hby _ hm.2⟩
  obtain ⟨s, b, xmin, ymin, xmax, ymax, h1, h2, h3, h4⟩ :=
    clampEndpoints_inside sq ps x0 x1 y0 y1 hvar hbox
  refine ⟨s, b, x0, x1, y0, y1, xmin, ymin, xmax, ymax, ?_, ?_, hdx, hdy, ?_, h4⟩
  · rw [cellRegression_fin sq mahalanobis cfg _ p ps hps]
    exact h1
  · rw [cellRegression_fin sq mahalanobis cfg _ p ps hps]
    exact h2
  · unfold cellEndpoints
    rw [cellRegression_fin sq mahalanobis cfg _ p ps hps, hdx, hdy]
    exact h3

theorem sum_const (c : K) (xs : List K) (h : ∀ v ∈ xs, v = c) :
    xs.sum = (xs.length : K) * c := by
  induction xs with
  | nil => simp
  | cons x xs ih =>
    have hx : x = c := h x (List.mem_cons_self _ _)
    simp only [List.sum_cons, List.length_cons, Nat.cast_succ,
      ih (fun v hv => h v (List.mem_cons_of_mem _ hv)), hx]
    ring

theorem sumProd_const (c : K) (xs : List K) (h : ∀ v ∈ xs, v = c) :
    ∀ ys : List K, ys.length = xs.length → sumProd xs ys = c * ys.sum := by
  induction xs with
  | nil =>
    intro ys hl
    have : ys = [] := List.length_eq_zero.1 (by simpa using hl)
    subst this
    simp [sumProd]
  | cons x xs ih =>
    intro ys hl
    cases ys with
    | nil => simp at hl
    | cons y ys =>
      have hx : x = c := h x (List.mem_cons_self _ _)
      have hl' : ys.length = xs.length := by simpa using hl
      have := ih (fun v hv => h v (List.mem_cons_of_mem _ hv)) ys hl'
      simp only [sumProd, List.zipWith_cons_cons, List.sum_cons] at this ⊢
      rw [this, hx]
      ring

/-- On constant x values the numerator `n·Σxy − Σx·Σy` vanishes with the denominator. -/
theorem covNum_eq_zero (xs ys : List K) (hlen : ys.length = xs.length)
    (h : varNum xs = 0) : covNum xs ys = 0 := by
  have hc := (varNum_eq_zero_iff xs).1 h
  cases xs with
  | nil => simp [covNum, sumProd]
  | cons c xs =>
    have hall : ∀ v ∈ c :: xs, v = c := fun v hv => hc v hv c (List.mem_cons_self _ _)
    unfold covNum
    rw [sumProd_const c _ hall ys hlen, sum_const c _ hall]
    ring

theorem infOfSign_zero : (infOfSign (0 : K) : JSNum K) = nan := by
  simp [infOfSign]

theorem linearRegression_zero_var (sq : K → K) (ys xs : List K)
    (hlen : ys.length = xs.length) (h : varNum xs = 0) :
    (linearRegression sq (ys.map fin) (xs.map fin)).slope = nan ∧
    (linearRegression sq (ys.map fin) (xs.map fin)).intercept = nan := by
  have hcov := covNum_eq_zero xs ys hlen h
  have e2 : (xs.length : K) * sumSq xs - xs.sum * xs.sum = varNum xs := rfl
  have e3 : (xs.length : K) * sumProd xs ys - xs.sum * ys.sum = covNum xs ys := rfl
  have hs : (linearRegression sq (ys.map fin) (xs.map fin)).slope = nan := by
    simp only [linearRegression, List.length_map, sumLoop_fin ys xs 0 0 0 0 0 hlen, zero_add,
      fin_mul_fin, fin_sub_fin, hlen]
    rw [e2, e3, h, hcov, fin_div_zero, infOfSign_zero]
  refine ⟨hs, ?_⟩
  simp only [linearRegression] at hs ⊢
  rw [hs]
  simp

theorem lt_nan_left (a : JSNum K) : JSNum.lt nan a = false := rfl

theorem lt_nan_right (a : JSNum K) : JSNum.lt a nan = false := by
  cases a <;> rfl

/-- With a `NaN` slope and intercept the clamping code leaves the x bounds and two `NaN` y
values, and the guard rejects them. -/
theorem clampEndpoints_nan (lr : Regression K) (hs : lr.slope = nan) (hb : lr.intercept = nan)
    (xd yd : JSNum K × JSNum K) :
    clampEndpoints lr xd yd = { xmin := xd.1, ymin := nan, xmax := xd.2, ymax := nan } := by
  have hf : ∀ v, lr.fnx v = nan := by
    intro v
    simp [Regression.fnx, hs, hb]
  simp [clampEndpoints, clampEnd, hf, lt_nan_left, lt_nan_right, JSNum.gt]

theorem foldl_add_fin (ds : List K) : ∀ a : K,
    (ds.map fin).foldl (fun acc d => acc + d) (fin a) = fin (a + ds.sum) := by
  induction ds with
  | nil => intro a; simp
  | cons d ds ih =>
    intro a
    simp only [List.map_cons, List.foldl_cons, fin_add_fin, ih, List.sum_cons, add_assoc]

/-- The mean of a non-empty list of finite distances. -/
theorem mean_fin (ds : List K) (hne : ds ≠ []) :
    mean (ds.map fin) = fin (ds.sum / (ds.length : K)) := by
  have hn : (ds.length : K) ≠ 0 := by
    have : ds.length ≠ 0 := fun h => hne (List.length_eq_zero.1 h)
    exact_mod_cast this
  have he : (ds.map fin).isEmpty = false := by
    cases ds with
    | nil => exact absurd rfl hne
    | cons d ds => rfl
  simp only [mean, he, Bool.false_eq_true, if_false, foldl_add_fin, zero_add, List.length_map]
  exact fin_div_fin _ _ hn

theorem mean_nil : mean ([] : List (JSNum K)) = nan := rfl

/-- The critical value on a non-empty list of finite distances with a finite multiplier. -/
theorem criticalValue_fin (cfg : JSObj K) (m : K)
    (hm : (cfg.get "FilterMultiplier").toNumber = fin m) (ds : List K) (hne : ds ≠ []) :
    criticalValue cfg (ds.map fin) = fin (ds.sum / (ds.length : K) * (3 - m)) := by
  simp [criticalValue, mean_fin ds hne, hm]

theorem criticalValue_nil (cfg : JSObj K) : criticalValue cfg ([] : List (JSNum K)) = nan := by
  simp [criticalValue, mean_nil]

theorem le_nan_right (a : JSNum K) : JSNum.le a nan = false := by
  cases a <;> rfl

theorem mean_nonneg (ds : List K) (hnn : ∀ d ∈ ds, 0 ≤ d) : 0 ≤ ds.sum / (ds.length : K) :=
  div_nonneg (List.sum_nonneg hnn) (Nat.cast_nonneg _)

theorem filterIdx_mono {α : Type} (xs : List α) (f g : α → Nat → Bool)
    (h : ∀ x i, f x i = true → g x i = true) :
    List.Sublist (filterIdx xs f) (filterIdx xs g) := by
  unfold filterIdx
  apply List.Sublist.map
  exact List.monotone_filter_right _ (fun ix hix => h ix.2 ix.1 hix)

theorem getD_map_fin (ds : List K) (k : Nat) :
    (ds.map fin).getD k nan = nan ∨ ∃ d ∈ ds, (ds.map fin).getD k nan = fin d := by
  by_cases hk : k < ds.length
  · right
    refine ⟨ds[k], List.getElem_mem _, ?_⟩
    simp [List.getD_eq_getElem?_getD, hk]
  · left
    have : ds[k]? = none := List.getElem?_eq_none (not_lt.1 hk)
    simp [List.getD_eq_getElem?_getD, this]

/-- The filter under a larger multiplier retains a subsequence of what it retains under a
smaller one, for finite non-negative distances. -/
theorem filterOutliers_mono (cfg1 cfg2 : JSObj K) (m1 m2 : K) (hm : m1 ≤ m2)
    (h1 : (cfg1.get "FilterMultiplier").toNumber = fin m1)
    (h2 : (cfg2.get "FilterMultiplier").toNumber = fin m2)
    (ds : List K) (hnn : ∀ d ∈ ds, 0 ≤ d) (zipped : List (JSNum K × JSNum K)) :
    List.Sublist (filterOutliers cfg2 (ds.map fin) zipped)
      (filterOutliers cfg1 (ds.map fin) zipped) := by
  unfold filterOutliers
  apply filterIdx_mono
  intro _ k hk
  by_cases hne : ds = []
  · subst hne
    simp [criticalValue_nil, le_nan_right] at hk
  · rw [criticalValue_fin cfg2 m2 h2 ds hne] at hk
    rw [criticalValue_fin cfg1 m1 h1 ds hne]
    have hmu := mean_nonneg ds hnn
    have hc : ds.sum / (ds.length : K) * (3 - m2) ≤ ds.sum / (ds.length : K) * (3 - m1) :=
      mul_le_mul_of_nonneg_left (by linarith) hmu
    rcases getD_map_fin ds k with e | ⟨d, -, e⟩
    · rw [e] at hk
      exact absurd hk (by simp [JSNum.le])
    · rw [e] at hk ⊢
      simp only [le_fin_fin, decide_eq_true_eq] at hk ⊢
      exact le_trans hk hc

/-- Claim C8 (amended): for finite non-negative distances and multipliers `m1 ≤ m2`, when the
list is not empty the critical value `mean(d)·(3 − m2)` is `<=` the critical value
`mean(d)·(3 − m1)`; and for every list (the empty one included) the pairs retained under `m2`
form a subsequence of the pairs retained under `m1`. -/
theorem outlier_filter_stricter (cfg1 cfg2 : JSObj K) (m1 m2 : K) (hm : m1 ≤ m2)
    (h1 : (cfg1.get "FilterMultiplier").toNumber = fin m1)
    (h2 : (cfg2.get "FilterMultiplier").toNumber = fin m2)
    (ds : List K) (hnn : ∀ d ∈ ds, 0 ≤ d) (zipped : List (JSNum K × JSNum K)) :
    (ds ≠ [] → ∃ c1 c2 : K, criticalValue cfg1 (ds.map fin) = fin c1 ∧
        criticalValue cfg2 (ds.map fin) = fin c2 ∧ c2 ≤ c1 ∧
        JSNum.le (criticalValue cfg2 (ds.map fin)) (criticalValue cfg1 (ds.map fin)) = true) ∧
    List.Sublist (filterOutliers cfg2 (ds.map fin) zipped)
      (filterOutliers cfg1 (ds.map fin) zipped) := by
  refine ⟨fun hne => ?_, filterOutliers_mono cfg1 cfg2 m1 m2 hm h1 h2 ds hnn zipped⟩
  have hc : ds.sum / (ds.length : K) * (3 - m2) ≤ ds.sum / (ds.length : K) * (3 - m1) :=
    mul_le_mul_of_nonneg_left (by linarith) (mean_nonneg ds hnn)
  refine ⟨_, _, criticalValue_fin cfg1 m1 h1 ds hne, criticalValue_fin cfg2 m2 h2 ds hne,
    hc, ?_⟩
  rw [criticalValue_fin cfg1 m1 h1 ds hne, criticalValue_fin cfg2 m2 h2 ds hne]
  simpa using hc

/-- Witness of C8 (amended): distances `[1, 2, 3]`, multipliers `1 ≤ 2`. -/
theorem outlier_filter_stricter_witness :
    (([1, 2, 3] : List ℚ) ≠ [] → ∃ c1 c2 : ℚ,
        criticalValue (cfgOfMultiplier 1) (([1, 2, 3] : List ℚ).map fin) = fin c1 ∧
        criticalValue (cfgOfMultiplier 2) (([1, 2, 3] : List ℚ).map fin) = fin c2 ∧ c2 ≤ c1 ∧
        JSNum.le (criticalValue (cfgOfMultiplier 2) (([1, 2, 3] : List ℚ).map fin))
          (criticalValue (cfgOfMultiplier 1) (([1, 2, 3] : List ℚ).map fin)) = true) ∧
    List.Sublist
      (filterOutliers (cfgOfMultiplier 2) (([1, 2, 3] : List ℚ).map fin)
        ((rowPairs sampleRows 0 1).map finPair))
      (filterOutliers (cfgOfMultiplier 1) (([1, 2, 3] : List ℚ).map fin)
        ((rowPairs sampleRows 0 1).map finPair)) :=
  outlier_filter_stricter (cfgOfMultiplier 1) (cfgOfMultiplier 2) 1 2 (by norm_num) rfl rfl
    [1, 2, 3] (by intro d hd; simp at hd; rcases hd with rfl | rfl | rfl <;> norm_num)
    ((rowPairs sampleRows 0 1).map finPair)

/-- Counterexample to C8 as stated: on the empty list (no negative distance) with multipliers
`1 ≤ 2`, both critical values are `NaN` and the comparison `<=` between them is false. -/
theorem critical_value_order_fails_on_empty :
    (∀ d ∈ ([] : List ℚ), 0 ≤ d) ∧ (1 : ℚ) ≤ 2 ∧
    ((cfgOfMultiplier 1).get "FilterMultiplier").toNumber = fin 1 ∧
    ((cfgOfMultiplier 2).get "FilterMultiplier").toNumber = fin 2 ∧
    criticalValue (cfgOfMultiplier 2) (([] : List ℚ).map fin) = nan ∧
    criticalValue (cfgOfMultiplier 1) (([] : List ℚ).map fin) = nan ∧
    JSNum.le (criticalValue (cfgOfMultiplier 2) (([] : List ℚ).map fin))
      (criticalValue (cfgOfMultiplier 1) (([] : List ℚ).map fin)) = false := by
  refine ⟨by simp, by norm_num, rfl, rfl, ?_, ?_, ?_⟩
  · simp [criticalValue_nil]
  · simp [criticalValue_nil]
  · simp [criticalValue_nil, le_nan_right]

/-! ## Multipliers that retain every pair -/

/-- The filter retains every pair whose distance is at most the critical value. -/
theorem filterOutliers_all (cfg : JSObj K) (m : K)
    (hcfg : (cfg.get "FilterMultiplier").toNumber = fin m) (ds : List K) (hne : ds ≠ [])
    (zipped : List (JSNum K × JSNum K)) (hlen : zipped.length ≤ ds.length)
    (h : ∀ d ∈ ds, d ≤ ds.sum / (ds.length : K) * (3 - m)) :
    filterOutliers cfg (ds.map fin) zipped = zipped := by
  unfold filterOutliers filterIdx
  rw [criticalValue_fin cfg m hcfg ds hne]
  have hall : zipped.enum.filter (fun ix => JSNum.le ((ds.map fin).getD ix.1 nan)
      (fin (ds.sum / (ds.length : K) * (3 - m)))) = zipped.enum := by
    rw [List.filter_eq_self]
    intro ix hix
    have hk : ix.1 < ds.length := lt_of_lt_of_le (List.fst_lt_of_mem_enum hix) hlen
    have e : (ds.map fin).getD ix.1 nan = fin ds[ix.1] := by
      simp [List.getD_eq_getElem?_getD, hk]
    rw [e]
    simpa using h _ (List.getElem_mem _)
  rw [hall, List.enum_map_snd]

/-- Claim C9 (amended): with `FilterMultiplier` small enough (`m ≤ 0`) the outlier filter
removes no points from well-behaved data: in an off-diagonal cell with `RemoveOutliers`
enabled, for a non-empty list of pairs whose distances (one per pair) are all positive and
each at most 3 times their mean, the filtered pair list equals the unfiltered pair list. -/
theorem outlier_filter_keeps_all
    (mahalanobis : List (JSNum K × JSNum K) → List (JSNum K)) (cfg : JSObj K)
    (data : Dataset K) (p : CellPos) (hij : p.i ≠ p.j)
    (hrem : (cfg.get "RemoveOutliers").truthy = true)
    (m : K) (hm : m ≤ 0) (hcfg : (cfg.get "FilterMultiplier").toNumber = fin m)
    (ds : List K) (hne : ds ≠ [])
    (hds : mahalanobis (data.plotData.map (fun value => (rowAt value p.i, rowAt value p.j)))
      = ds.map fin)
    (hlen : ds.length = data.plotData.length)
    (hd : ∀ d ∈ ds, 0 < d ∧ d ≤ 3 * (ds.sum / (ds.length : K))) :
    zippedArrayXY mahalanobis cfg data p =
      data.plotData.map (fun value => (rowAt value p.i, rowAt value p.j)) := by
  unfold zippedArrayXY
  simp only [zip_arrayXY0, if_pos (And.intro hij hrem), hds]
  apply filterOutliers_all cfg m hcfg ds hne
  · simp [hlen]
  · intro d hdm
    have hmu : 0 ≤ ds.sum / (ds.length : K) := mean_nonneg ds (fun d hd' => (hd d hd').1.le)
    have h3 := (hd d hdm).2
    nlinarith

/-- Witness of C9 (amended): two rows with distances `[1, 1]` and `FilterMultiplier = 0`. -/
theorem outlier_filter_keeps_all_witness :
    zippedArrayXY unitDistances (cfgOfMultiplier 0) (Dataset.ofRows twoRows ["a", "b"] ["p", "q"])
        sampleCell =
      (Dataset.ofRows twoRows ["a", "b"] ["p", "q"]).plotData.map
        (fun value => (rowAt value sampleCell.i, rowAt value sampleCell.j)) :=
  outlier_filter_keeps_all unitDistances (cfgOfMultiplier 0)
    (Dataset.ofRows twoRows ["a", "b"] ["p", "q"]) sampleCell (by decide) (by decide)
    0 (le_refl _) rfl [1, 1] (by simp) rfl rfl
    (by intro d hd; simp at hd; subst hd; norm_num)

/-- Counterexample to C9 as stated: two pairs with distances `[1, 1]` (positive, each at most
3 times their mean `1`) and `FilterMultiplier = 2.5`: the critical value is `0.5` and the
filter removes both pairs. -/
theorem near_three_multiplier_removes_all :
    (∀ d ∈ ([1, 1] : List ℚ), 0 < d ∧ d ≤ 3 * (([1, 1] : List ℚ).sum / 2)) ∧
    (5 / 2 : ℚ) ≤ 5 / 2 ∧ (5 / 2 : ℚ) ≤ 3 ∧
    ((cfgOfMultiplier (5 / 2)).get "RemoveOutliers").truthy = true ∧
    ((cfgOfMultiplier (5 / 2)).get "FilterMultiplier").toNumber = fin (5 / 2) ∧
    unitDistances ((Dataset.ofRows twoRows ["a", "b"] ["p", "q"]).plotData.map
        (fun value => (rowAt value sampleCell.i, rowAt value sampleCell.j)))
      = ([1, 1] : List ℚ).map fin ∧
    zippedArrayXY unitDistances (cfgOfMultiplier (5 / 2))
        (Dataset.ofRows twoRows ["a", "b"] ["p", "q"]) sampleCell = [] ∧
    zippedArrayXY unitDistances (cfgOfMultiplier (5 / 2))
        (Dataset.ofRows twoRows ["a", "b"] ["p", "q"]) sampleCell ≠
      (Dataset.ofRows twoRows ["a", "b"] ["p", "q"]).plotData.map
        (fun value => (rowAt value sampleCell.i, rowAt value sampleCell.j)) := by
  have hFM : ((cfgOfMultiplier (5 / 2)).get "FilterMultiplier").toNumber = fin (5 / 2) := rfl
  have hrem : ((cfgOfMultiplier (5 / 2)).get "RemoveOutliers").truthy = true := rfl
  have hz : zippedArrayXY unitDistances (cfgOfMultiplier (5 / 2))
      (Dataset.ofRows twoRows ["a", "b"] ["p", "q"]) sampleCell = [] := by
    unfold zippedArrayXY
    rw [if_pos ⟨by decide, hrem⟩]
    unfold filterOutliers criticalValue
    rw [hFM]
    norm_num [filterIdx, unitDistances, mean, fin_div_fin_eq, arrayXY0, Dataset.ofRows,
      twoRows, sampleCell, rowAt, List.enum, List.enumFrom, List.filter]
  refine ⟨?_, le_refl _, by norm_num, hrem, hFM, rfl, hz, ?_⟩
  · intro d hd
    simp at hd
    subst hd
    norm_num
  · rw [hz]
    simp [Dataset.ofRows, twoRows]

/-! ## The effective configuration -/

theorem JSObj.get_nil (k : String) : JSObj.get ([] : JSObj K) k = .undefined := rfl

theorem JSObj.get_cons_self (o : JSObj K) (k : String) (v : JSVal K) :
    JSObj.get ((k, v) :: o) k = v := by
  simp [JSObj.get, List.lookup]

theorem JSObj.get_cons_ne (o : JSObj K) (k k' : String) (v : JSVal K) (h : k' ≠ k) :
    JSObj.get ((k, v) :: o) k' = JSObj.get o k' := by
  have hb : (k' == k) = false := beq_eq_false_iff_ne.2 h
  simp [JSObj.get, List.lookup, hb]

theorem JSObj.get_set (o : JSObj K) (k : String) (v : JSVal K) (k' : String) :
    (JSObj.set o k v).get k' = if k' = k then v else o.get k' := by
  induction o with
  | nil =>
    by_cases h : k' = k
    · subst h
      simp [JSObj.set, JSObj.get_cons_self]
    · simp [JSObj.set, JSObj.get_cons_ne _ _ _ _ h, h, JSObj.get_nil]
  | cons e o ih =>
    obtain ⟨k0, v0⟩ := e
    by_cases h0 : k0 = k
    · subst h0
      by_cases h : k' = k0
      · subst h
        simp [JSObj.set, JSObj.get_cons_self]
      · simp [JSObj.set, JSObj.get_cons_ne _ _ _ _ h, h]
    · by_cases h1 : k' = k0
      · subst h1
        have hne : ¬ k' = k := h0
        simp [JSObj.set, h0, JSObj.get_cons_self, hne]
      · simp only [JSObj.set, if_neg h0, JSObj.get_cons_ne _ _ _ _ h1]
        exact ih

theorem JSObj.mem_keys_of_get (o : JSObj K) (k : String) (h : o.get k ≠ .undefined) :
    k ∈ o.keys := by
  induction o with
  | nil => exact absurd (JSObj.get_nil k) h
  | cons e o ih =>
    obtain ⟨k0, v0⟩ := e
    by_cases h0 : k = k0
    · simp [JSObj.keys, h0]
    · rw [JSObj.get_cons_ne _ _ _ _ h0] at h
      have := ih h
      simp only [JSObj.keys, List.map_cons, List.mem_cons] at this ⊢
      exact Or.inr this

/-- The override loop leaves `options` as it is and sets in `cfg` exactly the visited keys
whose value in `options` is not `undefined`. -/
theorem overrideLoop_spec (keys : List String) : ∀ st : CfgState K,
    (overrideLoop keys st).options = st.options ∧
    ∀ k, (overrideLoop keys st).cfg.get k =
      if k ∈ keys ∧ st.options.get k ≠ .undefined then st.options.get k else st.cfg.get k := by
  induction keys with
  | nil => intro st; simp [overrideLoop]
  | cons i rest ih =>
    intro st
    by_cases hi : st.options.get i ≠ .undefined
    · obtain ⟨h1, h2⟩ := ih { st with cfg := st.cfg.set i (st.options.get i) }
      simp only [overrideLoop, if_pos hi]
      refine ⟨h1, fun k => ?_⟩
      rw [h2 k]
      simp only [JSObj.get_set, List.mem_cons]
      by_cases hk : k = i
      · subst hk
        simp [hi]
      · simp [hk]
    · obtain ⟨h1, h2⟩ := ih st
      simp only [overrideLoop, if_neg hi]
      refine ⟨h1, fun k => ?_⟩
      rw [h2 k]
      simp only [List.mem_cons]
      by_cases hk : k = i
      · subst hk
        simp [hi]
      · simp [hk]

/-- Claim C10: for every `options` argument the effective configuration has, for each key
(the eight recognised ones in particular), the value `options[key]` when `options` is defined
and `options[key]` is not `undefined`, and otherwise the default (Width 700, Height 700,
RemoveOutliers false, FilterMultiplier 1.5, ShowBasicStatistics false, ShowRegression false,
ShowPearson false, ShowSpearman false); the call leaves `options` unmodified and each call of
a run builds its configuration from its own `options` alone. -/
theorem effective_cfg_override (options : Option (JSObj K)) :
    (∀ key : String, (effectiveCfg options).get key =
      match options with
      | some o => if o.get key ≠ .undefined then o.get key else (defaultCfg : JSObj K).get key
      | none => (defaultCfg : JSObj K).get key) ∧
    ((defaultCfg : JSObj K).get "Width" = .num (fin 700) ∧
      (defaultCfg : JSObj K).get "Height" = .num (fin 700) ∧
      (defaultCfg : JSObj K).get "RemoveOutliers" = .bool false ∧
      (defaultCfg : JSObj K).get "FilterMultiplier" = .num (fin (3 / 2)) ∧
      (defaultCfg : JSObj K).get "ShowBasicStatistics" = .bool false ∧
      (defaultCfg : JSObj K).get "ShowRegression" = .bool false ∧
      (defaultCfg : JSObj K).get "ShowPearson" = .bool false ∧
      (defaultCfg : JSObj K).get "ShowSpearman" = .bool false) ∧
    (createScatterMatrixCfg options).2 = options ∧
    (∀ calls : List (Option (JSObj K)), cfgOfCalls calls = calls.map effectiveCfg) := by
  refine ⟨?_, ⟨rfl, rfl, rfl, rfl, rfl, rfl, rfl, rfl⟩, ?_, ?_⟩
  · intro key
    cases options with
    | none => rfl
    | some o =>
      have h := (overrideLoop_spec o.keys { cfg := defaultCfg, options := o }).2 key
      simp only [effectiveCfg, createScatterMatrixCfg]
      rw [h]
      by_cases hk : o.get key ≠ .undefined
      · simp [hk, JSObj.mem_keys_of_get o key hk]
      · simp [hk]
  · cases options with
    | none => rfl
    | some o =>
      have h := (overrideLoop_spec o.keys { cfg := defaultCfg, options := o }).1
      simp only [createScatterMatrixCfg]
      rw [h]
  · intro calls
    induction calls with
    | nil => rfl
    | cons c calls ih => simp [cfgOfCalls, effectiveCfg, ih]

/-! ## Multipliers that never empty a cell -/

/-- An element whose index satisfies the predicate is retained by the indexed filter. -/
theorem mem_filterIdx {α : Type} (xs : List α) (f : α → Nat → Bool) (k : Nat)
    (hk : k < xs.length) (h : f xs[k] k = true) : xs[k] ∈ filterIdx xs f := by
  unfold filterIdx
  apply List.mem_map.2
  refine ⟨(k, xs[k]), ?_, rfl⟩
  apply List.mem_filter.2
  refine ⟨?_, h⟩
  rw [List.mk_mem_enum_iff_getElem?]
  exact List.getElem?_eq_getElem hk

/-- A non-empty list of finite values has an index holding its minimum. -/
theorem exists_min_index (ds : List K) (hne : ds ≠ []) :
    ∃ k, ∃ hk : k < ds.length, ∀ d ∈ ds, ds[k] ≤ d := by
  cases ds with
  | nil => exact absurd rfl hne
  | cons v vs =>
    obtain ⟨k, hk, e⟩ := List.getElem_of_mem (foldl_min_mem vs v)
    refine ⟨k, hk, ?_⟩
    intro d hd
    rw [e]
    rcases List.mem_cons.1 hd with rfl | hd
    · exact (foldl_min_le vs d).1
    · exact (foldl_min_le vs v).2 d hd

theorem filterIdx_eq_nil {α : Type} (xs : List α) (f : α → Nat → Bool)
    (h : ∀ x i, f x i = false) : filterIdx xs f = [] := by
  unfold filterIdx
  have : xs.enum.filter (fun ix => f ix.2 ix.1) = [] := by
    rw [List.filter_eq_nil_iff]
    intro ix _
    simp [h ix.2 ix.1]
  rw [this]
  rfl

theorem sum_replicate_mul (n : Nat) (c : K) : (List.replicate n c).sum = (n : K) * c := by
  induction n with
  | zero => simp
  | succ n ih =>
    simp only [List.replicate_succ, List.sum_cons, ih, Nat.cast_succ]
    ring

theorem sum_lower (lo : K) (vs : List K) (h : ∀ v ∈ vs, lo ≤ v) :
    (vs.length : K) * lo ≤ vs.sum := by
  induction vs with
  | nil => simp
  | cons v vs ih =>
    have h1 := h v (List.mem_cons_self _ _)
    have h2 := ih (fun w hw => h w (List.mem_cons_of_mem _ hw))
    simp only [List.length_cons, List.sum_cons, Nat.cast_succ]
    linarith

/-- A lower bound of the values of a non-empty list is a lower bound of its mean. -/
theorem le_mean (lo : K) (vs : List K) (hn : (vs.length : K) ≠ 0) (h : ∀ v ∈ vs, lo ≤ v) :
    lo ≤ vs.sum / (vs.length : K) := by
  have hpos : 0 < (vs.length : K) := lt_of_le_of_ne (Nat.cast_nonneg _) (Ne.symm hn)
  rw [le_div_iff₀ hpos]
  linarith [sum_lower lo vs h]

/-- Claim C15: for a non-empty list of pairs with finite non-negative distances (one per
pair) and a multiplier `m ≤ 2` the filtered pair list is not empty: a pair of minimum
distance is retained; whereas for every multiplier `m > 2` the filter removes every pair
of any list whose distances are all equal to one positive value. -/
theorem outlier_filter_never_empties (cfg : JSObj K) (m : K) (hm : m ≤ 2)
    (hcfg : (cfg.get "FilterMultiplier").toNumber = fin m)
    (ds : List K) (hnn : ∀ d ∈ ds, 0 ≤ d) (zipped : List (JSNum K × JSNum K))
    (hne : zipped ≠ []) (hlen : ds.length = zipped.length) :
    filterOutliers cfg (ds.map fin) zipped ≠ [] ∧
    (∃ k, ∃ hk : k < zipped.length, (∀ d ∈ ds, ds.getD k 0 ≤ d) ∧
      zipped[k] ∈ filterOutliers cfg (ds.map fin) zipped) ∧
    (∀ (cfg2 : JSObj K) (m2 : K), 2 < m2 →
      (cfg2.get "FilterMultiplier").toNumber = fin m2 →
      ∀ (c : K), 0 < c → ∀ zs : List (JSNum K × JSNum K),
        filterOutliers cfg2 ((List.replicate zs.length c).map fin) zs = []) := by
  have hdne : ds ≠ [] := by
    intro h0
    apply hne
    apply List.length_eq_zero.1
    rw [← hlen, h0]
    rfl
  obtain ⟨k, hk, hmin⟩ := exists_min_index ds hdne
  have hkz : k < zipped.length := hlen ▸ hk
  have hn : (ds.length : K) ≠ 0 := by
    have : ds.length ≠ 0 := fun h => hdne (List.length_eq_zero.1 h)
    exact_mod_cast this
  have hmean : ds[k] ≤ ds.sum / (ds.length : K) := le_mean ds[k] ds hn hmin
  have hmu := mean_nonneg ds hnn
  have hcrit : ds[k] ≤ ds.sum / (ds.length : K) * (3 - m) := by nlinarith
  have hmem : zipped[k] ∈ filterOutliers cfg (ds.map fin) zipped := by
    unfold filterOutliers
    apply mem_filterIdx zipped _ k hkz
    rw [criticalValue_fin cfg m hcfg ds hdne]
    have e : (ds.map fin).getD k nan = fin ds[k] := by
      simp [List.getD_eq_getElem?_getD, hk]
    rw [e]
    simpa using hcrit
  refine ⟨List.ne_nil_of_mem hmem, ⟨k, hkz, ?_, hmem⟩, ?_⟩
  · intro d hd
    have e : ds.getD k 0 = ds[k] := by
      simp [List.getD_eq_getElem?_getD, hk]
    rw [e]
    exact hmin d hd
  · intro cfg2 m2 hm2 hcfg2 c hc zs
    unfold filterOutliers
    apply filterIdx_eq_nil
    intro _ i
    by_cases hz : List.replicate zs.length c = []
    · rw [hz]
      simp [criticalValue_nil, le_nan_right]
    · rw [criticalValue_fin cfg2 m2 hcfg2 _ hz]
      have hlen0 : ((List.replicate zs.length c).length : K) ≠ 0 := by
        have : (List.replicate zs.length c).length ≠ 0 :=
          fun h => hz (List.length_eq_zero.1 h)
        exact_mod_cast this
      have hmean2 : (List.replicate zs.length c).sum /
          ((List.replicate zs.length c).length : K) = c := by
        rw [sum_replicate_mul, List.length_replicate] at *
        field_simp
      rw [hmean2]
      rcases getD_map_fin (List.replicate zs.length c) i with e | ⟨d, hd, e⟩
      · rw [e]
        rfl
      · rw [e, List.eq_of_mem_replicate hd]
        simp only [le_fin_fin, decide_eq_false_iff_not, not_le]
        nlinarith

/-- Witness of C15: distances `[1, 2, 3]` of the three sample pairs and `FilterMultiplier = 2`. -/
theorem outlier_filter_never_empties_witness :
    filterOutliers (cfgOfMultiplier 2) (([1, 2, 3] : List ℚ).map fin)
      ((rowPairs sampleRows 0 1).map finPair) ≠ [] :=
  (outlier_filter_never_empties (cfgOfMultiplier 2) 2 (le_refl _) rfl [1, 2, 3]
    (by intro d hd; simp at hd; rcases hd with rfl | rfl | rfl <;> norm_num)
    ((rowPairs sampleRows 0 1).map finPair) (by simp [rowPairs, sampleRows])
    (by simp [rowPairs, sampleRows])).1

/-! ## Undefined distances -/

theorem foldl_add_nan (ds : List (JSNum K)) :
    ds.foldl (fun acc d => acc + d) nan = nan := by
  induction ds with
  | nil => rfl
  | cons d ds ih => simpa using ih

theorem foldl_add_of_mem_nan (ds : List (JSNum K)) (h : nan ∈ ds) :
    ∀ acc : JSNum K, ds.foldl (fun acc d => acc + d) acc = nan := by
  induction ds with
  | nil => simp at h
  | cons d ds ih =>
    intro acc
    rcases List.mem_cons.1 h with e | h
    · rw [← e]
      simp only [List.foldl_cons, add_nan]
      exact foldl_add_nan ds
    · exact ih h _

/-- The mean of distances that are all `NaN` is `NaN`. -/
theorem mean_all_nan (ds : List (JSNum K)) (h : ∀ d ∈ ds, d = nan) : mean ds = nan := by
  cases ds with
  | nil => rfl
  | cons d ds =>
    have hd : d = nan := h d (List.mem_cons_self _ _)
    subst hd
    have := foldl_add_of_mem_nan (nan :: ds) (List.mem_cons_self _ _) (fin 0)
    simp only [mean, List.isEmpty_cons, Bool.false_eq_true, if_false, this, nan_div]

/-- The filter step on distances that are all `NaN` removes every pair. -/
theorem filterOutliers_all_nan (cfg : JSObj K) (ds : List (JSNum K))
    (h : ∀ d ∈ ds, d = nan) (zipped : List (JSNum K × JSNum K)) :
    filterOutliers cfg ds zipped = [] := by
  unfold filterOutliers
  apply filterIdx_eq_nil
  intro _ i
  simp [criticalValue, mean_all_nan ds h, le_nan_right]

/-- No line element is appended when the regression input has zero x-variance. -/
theorem regressionElems_zero_var (sq : K → K)
    (mahalanobis : List (JSNum K × JSNum K) → List (JSNum K)) (cfg : JSObj K)
    (data : Dataset K) (p : CellPos) (ps : List (K × K))
    (hps : zippedArrayXY mahalanobis cfg data p = ps.map finPair)
    (hvar : varNum (ps.map Prod.fst) = 0) :
    regressionElems sq mahalanobis cfg data p = [] := by
  have hlen : (ps.map Prod.snd).length = (ps.map Prod.fst).length := by simp
  obtain ⟨hs, hb⟩ := linearRegression_zero_var sq _ _ hlen hvar
  rw [← cellRegression_fin sq mahalanobis cfg _ p ps hps] at hs hb
  have he := clampEndpoints_nan _ hs hb (domainByPoint data p.i) (domainByPoint data p.j)
  unfold regressionElems cellEndpoints
  rw [he]
  simp [lineGuard, isNaN]

/-- Claim C12 (amended): in an off-diagonal cell with `RemoveOutliers` enabled whose distances
are all `NaN` (as for zero-variance data), the filter step removes every pair: the filtered
pair list is empty, the arrays used afterwards are empty, and the cell is rendered with its
frame and correlation texts only (no circle, no regression line); the step is a total
function and signals no error. -/
theorem nan_distances_remove_all (sq : K → K)
    (mahalanobis : List (JSNum K × JSNum K) → List (JSNum K)) (cfg : JSObj K)
    (data : Dataset K) (p : CellPos) (hij : p.i ≠ p.j)
    (hrem : (cfg.get "RemoveOutliers").truthy = true)
    (hnan : ∀ d ∈ mahalanobis
      (data.plotData.map (fun value => (rowAt value p.i, rowAt value p.j))), d = nan) :
    filterOutliers cfg
        (mahalanobis (data.plotData.map (fun value => (rowAt value p.i, rowAt value p.j))))
        (data.plotData.map (fun value => (rowAt value p.i, rowAt value p.j))) = [] ∧
    zippedArrayXY mahalanobis cfg data p = [] ∧
    arrayXY mahalanobis cfg data p = ([], []) ∧
    plot sq mahalanobis cfg data p = [Elem.frame] ++ correlationTexts cfg := by
  have hf := filterOutliers_all_nan cfg _ hnan
    (data.plotData.map (fun value => (rowAt value p.i, rowAt value p.j)))
  have hz : zippedArrayXY mahalanobis cfg data p = [] := by
    unfold zippedArrayXY
    simp only [zip_arrayXY0, if_pos (And.intro hij hrem)]
    exact hf
  have hreg : regressionElems sq mahalanobis cfg data p = [] :=
    regressionElems_zero_var sq mahalanobis cfg data p [] (by rw [hz]; rfl)
      (by simp [varNum, sumSq])
  refine ⟨hf, hz, ?_, ?_⟩
  · rw [arrayXY_eq, hz]
    rfl
  · unfold plot
    rw [if_pos hij, hz, hreg]
    simp

/-- Witness of C12 (amended): the four identical rows `[5, 5]` with `NaN` distances. -/
theorem nan_distances_remove_all_witness :
    zippedArrayXY nanDistances (cfgOfMultiplier (3 / 2))
        (Dataset.ofRows identicalRows ["a", "b"] ["p", "q"]) sampleCell = [] ∧
    plot (fun q => q) nanDistances (cfgOfMultiplier (3 / 2))
        (Dataset.ofRows identicalRows ["a", "b"] ["p", "q"]) sampleCell =
      [Elem.frame] ++ correlationTexts (cfgOfMultiplier (3 / 2)) := by
  have h := nan_distances_remove_all (fun q => q) nanDistances (cfgOfMultiplier (3 / 2))
    (Dataset.ofRows identicalRows ["a", "b"] ["p", "q"]) sampleCell (by decide) rfl
    (by intro d hd; simp [nanDistances] at hd; exact hd.2.symm)
  exact ⟨h.2.1, h.2.2.2⟩

/-- Counterexample to C12 as stated: for the four identical rows `[5, 5]` with
`RemoveOutliers` enabled and `NaN` distances, the unfiltered pair list has four pairs and
the filtered pair list is empty, so the two differ; the filter step returns this list and
signals no error. -/
theorem identical_rows_lose_all_pairs :
    ((cfgOfMultiplier (3 / 2)).get "RemoveOutliers").truthy = true ∧
    (Dataset.ofRows identicalRows ["a", "b"] ["p", "q"]).plotData.map
        (fun value => (rowAt value sampleCell.i, rowAt value sampleCell.j)) =
      [(fin 5, fin 5), (fin 5, fin 5), (fin 5, fin 5), (fin 5, fin 5)] ∧
    nanDistances ((Dataset.ofRows identicalRows ["a", "b"] ["p", "q"]).plotData.map
        (fun value => (rowAt value sampleCell.i, rowAt value sampleCell.j))) =
      [nan, nan, nan, nan] ∧
    zippedArrayXY nanDistances (cfgOfMultiplier (3 / 2))
        (Dataset.ofRows identicalRows ["a", "b"] ["p", "q"]) sampleCell = [] ∧
    zippedArrayXY nanDistances (cfgOfMultiplier (3 / 2))
        (Dataset.ofRows identicalRows ["a", "b"] ["p", "q"]) sampleCell ≠
      (Dataset.ofRows identicalRows ["a", "b"] ["p", "q"]).plotData.map
        (fun value => (rowAt value sampleCell.i, rowAt value sampleCell.j)) := by
  have hpairs : (Dataset.ofRows identicalRows ["a", "b"] ["p", "q"]).plotData.map
        (fun value => (rowAt value sampleCell.i, rowAt value sampleCell.j)) =
      [(fin 5, fin 5), (fin 5, fin 5), (fin 5, fin 5), (fin 5, fin 5)] := by
    simp [Dataset.ofRows, identicalRows, sampleCell, rowAt]
  have hz : zippedArrayXY nanDistances (cfgOfMultiplier (3 / 2))
      (Dataset.ofRows identicalRows ["a", "b"] ["p", "q"]) sampleCell = [] := by
    unfold zippedArrayXY
    rw [if_pos ⟨by decide, rfl⟩]
    exact filterOutliers_all_nan _ _
      (by intro d hd; simp [nanDistances] at hd; exact hd.2) _
  refine ⟨rfl, hpairs, ?_, hz, ?_⟩
  · rw [hpairs]
    rfl
  · rw [hz, hpairs]
    simp

/-! ## The parsed dataset -/

theorem valueCollection_some (data : List (Source K)) (i : Nat)
    (h : ∀ s ∈ data, i < s.values.length) :
    valueCollection (data.map (fun set => set.values)) i =
      some (data.map (fun s => s.valueAt i)) := by
  induction data with
  | nil => rfl
  | cons s data ih =>
    have hs : i < s.values.length := h s (List.mem_cons_self _ _)
    have ih' := ih (fun s' hs' => h s' (List.mem_cons_of_mem _ hs'))
    simp only [List.map_cons, valueCollection, List.getElem?_eq_getElem hs, ih',
      Source.valueAt]

theorem all_valueAt (data : List (Source K)) (i : Nat) :
    ((data.map (fun s => s.valueAt i)).all fun value => !isNaN value) =
      data.all (fun s => !isNaN (s.valueAt i)) := by
  induction data with
  | nil => rfl
  | cons s data ih => simp only [List.map_cons, List.all_cons, ih]

theorem parseLoop_some (data : List (Source K)) (idxs : List Nat) :
    ∀ plotData : List (List (JSNum K)),
    (∀ i ∈ idxs, ∀ s ∈ data, i < s.values.length) →
    parseLoop (data.map (fun set => set.values)) idxs plotData =
      some (plotData ++
        (idxs.filter (fun t => data.all (fun s => !isNaN (s.valueAt t)))).map
          (fun t => data.map (fun s => s.valueAt t))) := by
  induction idxs with
  | nil => intro plotData _; simp [parseLoop]
  | cons i idxs ih =>
    intro plotData h
    have hi : ∀ s ∈ data, i < s.values.length := h i (List.mem_cons_self _ _)
    have hrest : ∀ j ∈ idxs, ∀ s ∈ data, j < s.values.length :=
      fun j hj => h j (List.mem_cons_of_mem _ hj)
    simp only [parseLoop, valueCollection_some data i hi, all_valueAt data i]
    by_cases hok : (data.all (fun s => !isNaN (s.valueAt i))) = true
    · rw [if_pos hok, ih _ hrest]
      simp [List.filter_cons, hok]
    · rw [if_neg hok, ih _ hrest]
      simp [List.filter_cons, hok]

/-- Claim C14: for `N ≥ 1` sources that each carry `T` samples,
`parseAndCheckDataForScatterplot` returns a dataset whose `plotNames` and `plotPaths` are the
names and paths of the sources in source order (length `N`), and whose `plotData` holds, in
increasing sample order, one row for each sample index `t < T` at which no source's `Value`
is `NaN`, the row being the `N` values of that sample in source order; so every row has
exactly `N` values and none of them is `NaN`. -/
theorem parseAndCheckDataForScatterplot_spec (data : List (Source K)) (hN : data ≠ [])
    (T : Nat) (hT : ∀ s ∈ data, s.values.length = T) :
    ∃ dataSet : Dataset K, parseAndCheckDataForScatterplot data = some dataSet ∧
      dataSet.plotNames = data.map (fun s => s.name) ∧
      dataSet.plotPaths = data.map (fun s => s.path) ∧
      dataSet.plotNames.length = data.length ∧ dataSet.plotPaths.length = data.length ∧
      dataSet.plotData =
        ((List.range T).filter (fun t => data.all (fun s => !isNaN (s.valueAt t)))).map
          (fun t => data.map (fun s => s.valueAt t)) ∧
      ∀ row ∈ dataSet.plotData, row.length = data.length ∧ ∀ v ∈ row, isNaN v = false := by
  cases data with
  | nil => exact absurd rfl hN
  | cons s0 rest =>
    have h0 : s0.values.length = T := hT s0 (List.mem_cons_self _ _)
    have hidx : ∀ i ∈ List.range s0.values.length, ∀ s ∈ s0 :: rest, i < s.values.length := by
      intro i hi s hs
      rw [hT s hs, ← h0]
      exact List.mem_range.1 hi
    have hloop := parseLoop_some (s0 :: rest) (List.range s0.values.length) [] hidx
    refine ⟨⟨((List.range T).filter
          (fun t => (s0 :: rest).all (fun s => !isNaN (s.valueAt t)))).map
          (fun t => (s0 :: rest).map (fun s => s.valueAt t)),
        (s0 :: rest).map (fun s => s.name), (s0 :: rest).map (fun s => s.path)⟩,
      ?_, rfl, rfl, by simp, by simp, rfl, ?_⟩
    · simp only [parseAndCheckDataForScatterplot, List.map_cons, List.head?_cons]
      simp only [List.map_cons] at hloop
      rw [hloop, h0]
      simp
    · intro row hrow
      obtain ⟨t, ht, rfl⟩ := List.mem_map.1 hrow
      refine ⟨by simp, ?_⟩
      intro v hv
      obtain ⟨s, hs, rfl⟩ := List.mem_map.1 hv
      have hall := (List.mem_filter.1 ht).2
      have := List.all_eq_true.1 hall s hs
      simpa using this

/-- Witness of C14: two sources of three samples, the second sample of the first source
being `NaN`; the rows of samples 0 and 2 are retained. -/
theorem parseAndCheckDataForScatterplot_spec_witness :
    parseAndCheckDataForScatterplot nanSampleSources =
      some { plotData := [[fin 1, fin 4], [fin 3, fin 6]], plotNames := ["a", "b"],
             plotPaths := ["pa", "pb"] } := by
  obtain ⟨dataSet, h, h1, h2, -, -, h3, -⟩ :=
    parseAndCheckDataForScatterplot_spec nanSampleSources (by simp [nanSampleSources]) 3
      (by intro s hs; simp [nanSampleSources] at hs; rcases hs with rfl | rfl <;> rfl)
  rw [h]
  cases dataSet
  simp only at h1 h2 h3
  subst h1 h2 h3
  simp [nanSampleSources, Source.valueAt, isNaN, List.range, List.range.loop]

/-! ## The minimum-row check of the host symbol -/

/-- The data callbacks check the row count: a parsed dataset of at least 4 rows is rendered;
a smaller one is not, the message `Dataset to small` is set and `logError` adds it to the
log unless it is the last logged message. -/
theorem dataResolved_checked (debounced : Bool) (data : List (Source K)) (h : Host K)
    (dataSet : Dataset K) (hp : parseAndCheckDataForScatterplot data = some dataSet) :
    (4 ≤ dataSet.plotData.length →
      (dataResolved debounced data h).rendered = h.rendered ++ [some dataSet]) ∧
    (dataSet.plotData.length < 4 →
      (dataResolved debounced data h).rendered = h.rendered ∧
      (dataResolved debounced data h).ErrorMessage = "Dataset to small" ∧
      (dataResolved debounced data h).lastMessage = "Dataset to small" ∧
      (dataResolved debounced data h).log =
        if h.lastMessage = "Dataset to small" then h.log else h.log ++ ["Dataset to small"]) := by
  constructor
  · intro h4
    simp [dataResolved, hp, h4]
  · intro h4
    have hn : ¬ 4 ≤ dataSet.plotData.length := not_le.2 h4
    by_cases hl : h.lastMessage = "Dataset to small"
    · have hl' : ¬ "Dataset to small" ≠ h.lastMessage := fun hne => hne hl.symm
      simp [dataResolved, hp, hn, logError, hl]
    · have hl' : "Dataset to small" ≠ h.lastMessage := fun e => hl e.symm
      simp [dataResolved, hp, hn, logError, hl, hl']

/-- Claim C13 (failing input): after the links resolve and the data callback delivers two
sources of three samples, the parsed dataset has 3 rows, nothing is rendered and
`Dataset to small` is set and logged; a following `configChanged` with an unchanged
`NumberOfCurrentPoints` (a resize from width 700 to 800) takes the branch without row check
and calls `createScatterMatrix` with that dataset of 3 rows. -/
theorem configChanged_renders_small_dataset :
    ∃ dataSet : Dataset ℚ,
      parseAndCheckDataForScatterplot threeSampleSources = some dataSet ∧
      dataSet.plotData.length = 3 ∧
      (Host.run sampleEquals Host.init
        [.linksResolved, .dataResolved false threeSampleSources]).rendered = [] ∧
      (Host.run sampleEquals Host.init
        [.linksResolved, .dataResolved false threeSampleSources]).ErrorMessage
          = "Dataset to small" ∧
      (Host.run sampleEquals Host.init
        [.linksResolved, .dataResolved false threeSampleSources]).log = ["Dataset to small"] ∧
      sampleEquals hostConfigB hostConfigA = false ∧
      (Host.run sampleEquals Host.init
        [.linksResolved, .dataResolved false threeSampleSources,
          .configChanged (some hostConfigB) (some hostConfigA)]).rendered = [some dataSet] := by
  have hp : parseAndCheckDataForScatterplot threeSampleSources =
      some { plotData := [[fin 1, fin 4], [fin 2, fin 5], [fin 3, fin 6]],
             plotNames := ["a", "b"], plotPaths := ["pa", "pb"] } := by
    simp [parseAndCheckDataForScatterplot, threeSampleSources, parseLoop, valueCollection,
      isNaN, List.range, List.range.loop]
  have heq : sampleEquals hostConfigB hostConfigA = false := by
    simp [sampleEquals, hostConfigA, hostConfigB, JSObj.get, List.lookup, JSVal.strictNe]
  have hne : JSVal.strictNe (hostConfigB.get "NumberOfCurrentPoints")
      (hostConfigA.get "NumberOfCurrentPoints") = false := by
    simp [hostConfigA, hostConfigB, JSObj.get, List.lookup, JSVal.strictNe]
  refine ⟨_, hp, rfl, ?_, ?_, ?_, heq, ?_⟩
  · simp [Host.run, Host.step, Host.init, dataResolved, hp, logError]
  · simp [Host.run, Host.step, Host.init, dataResolved, hp, logError]
  · simp [Host.run, Host.step, Host.init, dataResolved, hp, logError]
  · simp [Host.run, Host.step, Host.init, dataResolved, hp, logError, configChanged, heq, hne]

/-! ## Pairs lying exactly on a line -/

/-- The regression of `y = a·x + b`, `a ≠ 0`, on non-constant x values. -/
theorem affine_regression (sq : K → K) (a b : K) (ha : a ≠ 0) (xs : List K)
    (hvar : varNum xs ≠ 0) :
    (linearRegression sq ((xs.map (fun x => a * x + b)).map fin) (xs.map fin)).slope = fin a ∧
    (linearRegression sq ((xs.map (fun x => a * x + b)).map fin) (xs.map fin)).intercept
      = fin b ∧
    ((∀ q : K, 0 ≤ q → sq q * sq q = q) →
      (linearRegression sq ((xs.map (fun x => a * x + b)).map fin) (xs.map fin)).r2
        = fin 1) := by
  have hn : (xs.length : K) ≠ 0 := length_pos_of_varNum_ne xs hvar
  have hlen : (xs.map (fun x => a * x + b)).length = xs.length := List.length_map _ _
  have hvy : varNum (xs.map (fun x => a * x + b)) ≠ 0 := by
    rw [varNum_affine]
    exact mul_ne_zero (mul_ne_zero ha ha) hvar
  refine ⟨?_, ?_, fun hsq => ?_⟩
  · rw [linearRegression_slope sq _ xs hlen hvar, covNum_affine]
    congr 1
    field_simp
  · rw [linearRegression_intercept sq _ xs hlen hvar, covNum_affine, sum_affine]
    congr 1
    field_simp
  · rw [linearRegression_r2 sq hsq _ xs hlen hvar hvy, covNum_affine, varNum_affine]
    congr 1
    field_simp
    ring

/-- The regression of pairs lying on the line `y = a·x + b`, `a ≠ 0`, with non-constant x. -/
theorem collinear_regression (sq : K → K) (a b : K) (ha : a ≠ 0) (ps : List (K × K))
    (hon : ∀ q ∈ ps, q.2 = a * q.1 + b) (hvar : varNum (ps.map Prod.fst) ≠ 0) :
    (linearRegression sq ((ps.map Prod.snd).map fin) ((ps.map Prod.fst).map fin)).slope
      = fin a ∧
    (linearRegression sq ((ps.map Prod.snd).map fin) ((ps.map Prod.fst).map fin)).intercept
      = fin b ∧
    ((∀ q : K, 0 ≤ q → sq q * sq q = q) →
      (linearRegression sq ((ps.map Prod.snd).map fin) ((ps.map Prod.fst).map fin)).r2
        = fin 1) := by
  have hys : ps.map Prod.snd = (ps.map Prod.fst).map (fun x => a * x + b) := by
    rw [List.map_map]
    apply List.map_congr_left
    intro q hq
    exact hon q hq
  rw [hys]
  exact affine_regression sq a b ha _ hvar

/-- An end whose line value lies in the y-domain is left unchanged by the clamping code. -/
theorem clampEnd_unchanged (lr : Regression K) (s b xq y0 y1 : K)
    (hs : lr.slope = fin s) (hb : lr.intercept = fin b)
    (h0 : y0 ≤ s * xq + b) (h1 : s * xq + b ≤ y1) :
    lr.fnx (fin xq) = fin (s * xq + b) ∧
    JSNum.lt (lr.fnx (fin xq)) (fin y0) = false ∧
    JSNum.gt (lr.fnx (fin xq)) (fin y1) = false ∧
    clampEnd lr (fin xq) (fin y0, fin y1) = (fin xq, fin (s * xq + b)) := by
  have hfnx : lr.fnx (fin xq) = fin (s * xq + b) := by
    simp [Regression.fnx, hs, hb]
  refine ⟨hfnx, ?_, ?_, ?_⟩
  · simp [hfnx, not_lt.2 h0]
  · simp [hfnx, not_lt.2 h1]
  · simp [clampEnd, hfnx, not_lt.2 h0, not_lt.2 h1]

/-- The domain of a variable of finite observations is attained in its column. -/
theorem domainByPoint_attained (rows : List (List K)) (names paths : List String)
    (hne : rows ≠ []) (hN : ∀ r ∈ rows, r.length = names.length)
    (i : Nat) (hi : i < names.length) :
    ∃ mn mx : K, domainByPoint (Dataset.ofRows rows names paths) i = (fin mn, fin mx) ∧
      mn ∈ column rows i ∧ mx ∈ column rows i ∧ ∀ v ∈ column rows i, mn ≤ v ∧ v ≤ mx := by
  have hcol : column rows i ≠ [] := by
    simpa [column] using hne
  obtain ⟨mn, mx, he, hmn, hmx, hb⟩ := extent_fin (column rows i) hcol
  refine ⟨mn, mx, ?_, hmn, hmx, hb⟩
  unfold domainByPoint
  rw [plotData_column rows names paths i (fun r hr => by rw [hN r hr]; exact hi)]
  exact he

/-- When every row has `value_j = a·value_i + b` with `a ≠ 0`, the domain of variable `j` is
the image of the domain of variable `i`: its bounds are the line values at the two x bounds. -/
theorem collinear_domain (rows : List (List K)) (names paths : List String)
    (hne : rows ≠ []) (hN : ∀ r ∈ rows, r.length = names.length)
    (i j : Nat) (hi : i < names.length) (hj : j < names.length) (a b : K) (ha : a ≠ 0)
    (hline : ∀ r ∈ rows, r.getD j 0 = a * r.getD i 0 + b) :
    ∃ x0 x1 : K, x0 ≤ x1 ∧
      domainByPoint (Dataset.ofRows rows names paths) i = (fin x0, fin x1) ∧
      domainByPoint (Dataset.ofRows rows names paths) j =
        (fin (min (a * x0 + b) (a * x1 + b)), fin (max (a * x0 + b) (a * x1 + b))) := by
  obtain ⟨x0, x1, hdx, hx0, hx1, hbx⟩ := domainByPoint_attained rows names paths hne hN i hi
  obtain ⟨y0, y1, hdy, hy0, hy1, hby⟩ := domainByPoint_attained rows names paths hne hN j hj
  have hx01 : x0 ≤ x1 := le_trans (hbx x0 hx0).1 (hbx x0 hx0).2
  have himg : ∀ x ∈ column rows i, a * x + b ∈ column rows j := by
    intro x hx
    obtain ⟨r, hr, rfl⟩ := List.mem_map.1 hx
    exact List.mem_map.2 ⟨r, hr, hline r hr⟩
  have hpre : ∀ y ∈ column rows j, ∃ x ∈ column rows i, y = a * x + b := by
    intro y hy
    obtain ⟨r, hr, rfl⟩ := List.mem_map.1 hy
    exact ⟨r.getD i 0, List.mem_map.2 ⟨r, hr, rfl⟩, hline r hr⟩
  obtain ⟨u0, hu0, e0⟩ := hpre y0 hy0
  obtain ⟨u1, hu1, e1⟩ := hpre y1 hy1
  have b00 := hby _ (himg x0 hx0)
  have b01 := hby _ (himg x1 hx1)
  have c0 := hbx u0 hu0
  have c1 := hbx u1 hu1
  refine ⟨x0, x1, hx01, hdx, ?_⟩
  rw [hdy]
  rcases lt_or_gt_of_ne ha with hneg | hpos
  · have hy0' : y0 = a * x1 + b := by
      apply le_antisymm b01.1
      rw [e0]
      nlinarith
    have hy1' : y1 = a * x0 + b := by
      apply le_antisymm _ b00.2
      rw [e1]
      nlinarith
    have hle : a * x1 + b ≤ a * x0 + b := by nlinarith
    rw [hy0', hy1', min_eq_right hle, max_eq_left hle]
  · have hy0' : y0 = a * x0 + b := by
      apply le_antisymm b00.1
      rw [e0]
      nlinarith
    have hy1' : y1 = a * x1 + b := by
      apply le_antisymm _ b01.2
      rw [e1]
      nlinarith
    have hle : a * x0 + b ≤ a * x1 + b := by nlinarith
    rw [hy0', hy1', min_eq_left hle, max_eq_right hle]

/-- Without the outlier step the pair list of a cell is the list of all rows' pairs. -/
theorem zippedArrayXY_unfiltered (mahalanobis : List (JSNum K × JSNum K) → List (JSNum K))
    (cfg : JSObj K) (data : Dataset K) (p : CellPos)
    (h : ¬ (p.i ≠ p.j ∧ (cfg.get "RemoveOutliers").truthy = true)) :
    zippedArrayXY mahalanobis cfg data p =
      data.plotData.map (fun value => (rowAt value p.i, rowAt value p.j)) := by
  unfold zippedArrayXY
  simp only [zip_arrayXY0, if_neg h]

/-- The finite pairs of a cell form a subsequence of the rows' pairs. -/
theorem pairs_sublist_rowPairs (mahalanobis : List (JSNum K × JSNum K) → List (JSNum K))
    (cfg : JSObj K) (rows : List (List K)) (names paths : List String) (p : CellPos)
    (hi : ∀ r ∈ rows, p.i < r.length) (hj : ∀ r ∈ rows, p.j < r.length) (ps : List (K × K))
    (hps : zippedArrayXY mahalanobis cfg (Dataset.ofRows rows names paths) p = ps.map finPair) :
    List.Sublist ps (rowPairs rows p.i p.j) := by
  have h := zippedArrayXY_sublist mahalanobis cfg (Dataset.ofRows rows names paths) p
  rw [plotData_pairs rows names paths p.i p.j hi hj, hps] at h
  obtain ⟨ps2, hsub2, e⟩ := List.sublist_map_iff.1 h
  have hinj : Function.Injective (finPair : K × K → JSNum K × JSNum K) := by
    intro a b hab
    simp only [finPair, Prod.mk.injEq, fin.injEq] at hab
    exact Prod.ext hab.1 hab.2
  rw [List.map_injective_iff.2 hinj e]
  exact hsub2

/-- The regression overlay of a cell whose rows all have `value_j = a·value_i + b`, `a ≠ 0`,
and whose regression input has non-constant x values: the fitted line is that line, no
clamping branch is taken, and the segment joins the line's points at the two x-domain
bounds, whose y values are the two y-domain bounds. -/
theorem collinear_cell (sq : K → K)
    (mahalanobis : List (JSNum K × JSNum K) → List (JSNum K)) (cfg : JSObj K)
    (rows : List (List K)) (names paths : List String)
    (hN : ∀ r ∈ rows, r.length = names.length)
    (p : CellPos) (hi : p.i < names.length) (hj : p.j < names.length)
    (a b : K) (ha : a ≠ 0) (hline : ∀ r ∈ rows, r.getD p.j 0 = a * r.getD p.i 0 + b)
    (ps : List (K × K))
    (hps : zippedArrayXY mahalanobis cfg (Dataset.ofRows rows names paths) p = ps.map finPair)
    (hvar : varNum (ps.map Prod.fst) ≠ 0) :
    ∃ x0 x1 : K, x0 ≤ x1 ∧
      domainByPoint (Dataset.ofRows rows names paths) p.i = (fin x0, fin x1) ∧
      domainByPoint (Dataset.ofRows rows names paths) p.j =
        (fin (min (a * x0 + b) (a * x1 + b)), fin (max (a * x0 + b) (a * x1 + b))) ∧
      (cellRegression sq mahalanobis cfg (Dataset.ofRows rows names paths) p).slope = fin a ∧
      (cellRegression sq mahalanobis cfg (Dataset.ofRows rows names paths) p).intercept
        = fin b ∧
      ((∀ q : K, 0 ≤ q → sq q * sq q = q) →
        (cellRegression sq mahalanobis cfg (Dataset.ofRows rows names paths) p).r2 = fin 1) ∧
      cellEndpoints sq mahalanobis cfg (Dataset.ofRows rows names paths) p =
        (Endpoints.mk (fin x0) (fin (a * x0 + b)) (fin x1) (fin (a * x1 + b))) ∧
      ((cfg.get "ShowRegression").truthy = true →
        regressionElems sq mahalanobis cfg (Dataset.ofRows rows names paths) p =
          [Elem.line (Endpoints.mk (fin x0) (fin (a * x0 + b)) (fin x1) (fin (a * x1 + b)))
            (fin a) (fin b)]) := by
  have hri : ∀ r ∈ rows, p.i < r.length := fun r hr => by rw [hN r hr]; exact hi
  have hrj : ∀ r ∈ rows, p.j < r.length := fun r hr => by rw [hN r hr]; exact hj
  have hsub := pairs_sublist_rowPairs mahalanobis cfg rows names paths p hri hrj ps hps
  have hrows : rows ≠ [] := by
    intro h0
    subst h0
    have : ps = [] := by simpa [rowPairs] using hsub
    subst this
    exact hvar (by simp [varNum, sumSq])
  have hon : ∀ q ∈ ps, q.2 = a * q.1 + b := by
    intro q hq
    obtain ⟨r, hr, rfl⟩ := List.mem_map.1 (hsub.subset hq)
    exact hline r hr
  obtain ⟨x0, x1, hx01, hdx, hdy⟩ :=
    collinear_domain rows names paths hrows hN p.i p.j hi hj a b ha hline
  obtain ⟨hs, hb, hr2⟩ := collinear_regression sq a b ha ps hon hvar
  rw [← cellRegression_fin sq mahalanobis cfg _ p ps hps] at hs hb hr2
  have hlo := clampEnd_unchanged _ a b x0 _ _ hs hb (min_le_left _ (a * x1 + b))
    (le_max_left _ (a * x1 + b))
  have hhi := clampEnd_unchanged _ a b x1 _ _ hs hb (min_le_right (a * x0 + b) _)
    (le_max_right (a * x0 + b) _)
  have hend : cellEndpoints sq mahalanobis cfg (Dataset.ofRows rows names paths) p =
      (Endpoints.mk (fin x0) (fin (a * x0 + b)) (fin x1) (fin (a * x1 + b))) := by
    unfold cellEndpoints clampEndpoints
    rw [hdx, hdy]
    simp only [hlo.2.2.2, hhi.2.2.2]
  refine ⟨x0, x1, hx01, hdx, hdy, hs, hb, hr2, hend, ?_⟩
  intro hshow
  unfold regressionElems
  simp only [hshow, if_true, hend, lineGuard_fin, hs, hb]

/-- Without the outlier step a dataset with two different x values gives a regression input
with two different x values. -/
theorem unfiltered_distinct (mahalanobis : List (JSNum K × JSNum K) → List (JSNum K))
    (cfg : JSObj K) (rows : List (List K)) (names paths : List String) (p : CellPos)
    (hi : ∀ r ∈ rows, p.i < r.length) (hj : ∀ r ∈ rows, p.j < r.length)
    (hrem : (cfg.get "RemoveOutliers").truthy = false)
    (hx : ∃ u ∈ rows, ∃ v ∈ rows, u.getD p.i 0 ≠ v.getD p.i 0) :
    zippedArrayXY mahalanobis cfg (Dataset.ofRows rows names paths) p =
      (rowPairs rows p.i p.j).map finPair ∧
    varNum ((rowPairs rows p.i p.j).map Prod.fst) ≠ 0 := by
  constructor
  · rw [zippedArrayXY_unfiltered mahalanobis cfg _ p (by simp [hrem]),
      plotData_pairs rows names paths p.i p.j hi hj]
  · obtain ⟨u, hu, v, hv, huv⟩ := hx
    apply ne_of_gt
    apply varNum_pos_of_ne
    refine ⟨u.getD p.i 0, ?_, v.getD p.i 0, ?_, huv⟩
    · exact List.mem_map.2 ⟨_, List.mem_map.2 ⟨u, hu, rfl⟩, rfl⟩
    · exact List.mem_map.2 ⟨_, List.mem_map.2 ⟨v, hv, rfl⟩, rfl⟩

/-- The regression input of a cell of finite observations with two different x values. -/
theorem exists_pairs_of_distinct (mahalanobis : List (JSNum K × JSNum K) → List (JSNum K))
    (cfg : JSObj K) (rows : List (List K)) (names paths : List String) (p : CellPos)
    (hi : ∀ r ∈ rows, p.i < r.length) (hj : ∀ r ∈ rows, p.j < r.length)
    (hx : ∃ u ∈ zippedArrayXY mahalanobis cfg (Dataset.ofRows rows names paths) p,
      ∃ v ∈ zippedArrayXY mahalanobis cfg (Dataset.ofRows rows names paths) p, u.1 ≠ v.1) :
    ∃ ps : List (K × K),
      zippedArrayXY mahalanobis cfg (Dataset.ofRows rows names paths) p = ps.map finPair ∧
      varNum (ps.map Prod.fst) ≠ 0 := by
  obtain ⟨ps, -, hps⟩ := zippedArrayXY_fin mahalanobis cfg rows names paths p hi hj
  refine ⟨ps, hps, ?_⟩
  obtain ⟨u, hu, v, hv, huv⟩ := hx
  rw [hps] at hu hv
  obtain ⟨qu, hqu, rfl⟩ := List.mem_map.1 hu
  obtain ⟨qv, hqv, rfl⟩ := List.mem_map.1 hv
  apply ne_of_gt
  apply varNum_pos_of_ne
  refine ⟨qu.1, List.mem_map.2 ⟨qu, hqu, rfl⟩, qv.1, List.mem_map.2 ⟨qv, hqv, rfl⟩, ?_⟩
  intro e
  apply huv
  simp [finPair, e]

end ScatterplotMatrix
